import Mathlib

/-!
# Verification of `version_checker.py` (mcup-locker-file)

Shallow embedding of `.github/scripts/version_checker.py`: the locker data
model, the four source fetchers (vanilla, paper, forge, neoforge), the URL
validator, and the change publisher (`create_pr` / the `run` loop).

Network and subprocess effects are modelled by explicit oracles (records of
functions describing the responses the environment would give); a Python
exception raised by an unguarded request is modelled with `Except`, and a
guarded request (one inside `try/except`) by an `Option` result that the
embedded control flow inspects, mirroring the `except` handler.
-/

namespace VersionChecker

/-- A version entry of the locker document, with the fixed field set used by
this program (spec §3): `version`, `source`, `server_url` / `installer_url`,
`installer_args`, `supports_plugins`, `supports_mods`, `configs`, `cleanup`.
The Python code stores entries as dicts; optional URL fields absent from a
dict are `none` (`entry.get(...)` returns Python `None`). -/
structure Entry where
  version : String
  source : String
  server_url : Option String := none
  installer_url : Option String := none
  installer_args : List String := []
  supports_plugins : Bool
  supports_mods : Bool
  configs : List String
  cleanup : List String
deriving Repr, DecidableEq

/-- One element of a fetcher's change list:
`(server_type, version, is_new, entry)`. -/
abbrev Change := String × String × Bool × Entry

/-- The in-memory locker document: `locker_data['servers']` maps a
server-type key to an ordered list of entries.  Python dicts are
insertion-ordered, so the mapping is an ordered association list. -/
structure Locker where
  servers : List (String × List Entry)
deriving Repr, DecidableEq

/-- Python `key in dict` / `dict[key]` lookup: first (only) binding wins. -/
def dictLookup {α : Type} (kvs : List (String × α)) (k : String) :
    Option α :=
  match kvs with
  | [] => none
  | (k', v) :: rest => if k' = k then some v else dictLookup rest k

/-- Python `dict[key] = value`: update in place if the key is present
(keeping its position), otherwise append the new binding at the end. -/
def dictSet {α : Type} (kvs : List (String × α)) (k : String)
    (v : α) : List (String × α) :=
  match kvs with
  | [] => [(k, v)]
  | (k', v') :: rest =>
      if k' = k then (k, v) :: rest else (k', v') :: dictSet rest k v

/-- `get_existing_versions`: the dict comprehension
`{entry['version']: entry for entry in self.locker_data['servers'][t]}`
maps each version string to an entry, a later duplicate overwriting an
earlier one; `version in existing_versions` / `existing_versions[version]`
is therefore lookup of the LAST entry with that version.  Empty mapping if
the server type is unseen. -/
def get_existing_versions (locker : Locker) (server_type : String) :
    String → Option Entry :=
  fun version =>
    match dictLookup locker.servers server_type with
    | none => none
    | some entries =>
        (entries.filter (fun e => e.version = version)).getLast?

/-! ## Python string and list helpers

The Python string primitives the source uses (`split`, `int`, `endswith`,
`replace`, `in`, `capitalize`, `join`) are implemented here over
`List Char`, following Python semantics on the inputs this program meets. -/

/-- The value of a decimal digit character. -/
def digitVal (c : Char) : Option Nat :=
  if '0' ≤ c ∧ c ≤ '9' then some (c.toNat - 48) else none

/-- Accumulate a decimal digit run; `none` on any non-digit. -/
def digitsToNat (acc : Nat) : List Char → Option Nat
  | [] => some acc
  | c :: rest =>
      match digitVal c with
      | some d => digitsToNat (acc * 10 + d) rest
      | none => none

/-- Python `int(s)` on the version components this program meets: an
optional sign followed by a nonempty decimal digit run; anything else
raises `ValueError` (`none`).  (Python also strips whitespace and allows
underscore separators; no input here contains either.) -/
def pyToInt (s : String) : Option Int :=
  match s.data with
  | [] => none
  | '-' :: rest =>
      if rest = [] then none
      else (digitsToNat 0 rest).map (fun n => -(n : Int))
  | '+' :: rest =>
      if rest = [] then none
      else (digitsToNat 0 rest).map (fun n => (n : Int))
  | l => (digitsToNat 0 l).map (fun n => (n : Int))

/-- Split a character list on a separator character; like Python
`s.split(sep)`, adjacent separators produce empty pieces and the result is
always nonempty. -/
def splitOnChar (sep : Char) : List Char → List (List Char)
  | [] => [[]]
  | c :: rest =>
      let r := splitOnChar sep rest
      if c = sep then [] :: r
      else
        match r with
        | [] => [[c]]
        | piece :: more => (c :: piece) :: more

/-- Python `s.split('.')`. -/
def pySplitDot (s : String) : List String :=
  (splitOnChar '.' s.data).map String.mk

/-- Python `s.endswith(t)`. -/
def pyEndsWith (s t : String) : Bool :=
  let l := s.data
  let p := t.data
  if p.length ≤ l.length then l.drop (l.length - p.length) == p else false

/-- Replace every (leftmost, non-overlapping) occurrence of the nonempty
pattern by nothing, with fuel bounded by the list length. -/
def listEraseAll (pat : List Char) : Nat → List Char → List Char
  | _, [] => []
  | 0, l => l
  | fuel + 1, c :: rest =>
      if (c :: rest).take pat.length == pat then
        listEraseAll pat fuel ((c :: rest).drop pat.length)
      else c :: listEraseAll pat fuel rest

/-- Python `s.replace(pat, '')` for a nonempty `pat` (the only use the
source makes of `replace`). -/
def pyReplaceEmpty (s pat : String) : String :=
  String.mk (listEraseAll pat.data s.data.length s.data)

/-- Python `', '.join`-style interspersion (`str.join`). -/
def interc (sep : String) : List String → String
  | [] => ""
  | [s] => s
  | s :: rest => s ++ sep ++ interc sep rest

/-- Python list comparison `<` on integer lists (lexicographic; a strict
prefix is smaller), as used by `mc_version_parts < [1, 5, 2]` etc. -/
def pyListLt : List Int → List Int → Bool
  | [], [] => false
  | [], _ :: _ => true
  | _ :: _, [] => false
  | a :: as, b :: bs =>
      if a < b then true else if b < a then false else pyListLt as bs

/-- Python list comparison `<=` on integer lists. -/
def pyListLe (a b : List Int) : Bool := pyListLt a b || a == b

/-- `[int(x) for x in s.split('.')]` with the surrounding
`try/except ValueError`: splitting on `'.'` and converting each piece with
`int()`; `none` models the `ValueError` raised when a piece is not an
integer literal (the versions this program meets are plain decimal
digit runs, which `String.toInt?` converts exactly as Python `int`). -/
def parseIntList (s : String) : Option (List Int) :=
  let pieces := pySplitDot s
  let nums := pieces.map pyToInt
  if nums.all Option.isSome then some (nums.map (·.getD 0)) else none

/-- Python `str.capitalize()`: first character uppercased, the rest
lowercased. -/
def pyCapitalize (s : String) : String :=
  match s.data with
  | [] => ""
  | c :: rest => String.mk (c.toUpper :: rest.map Char.toLower)

/-! ## Vanilla fetcher (`check_vanilla`)

The manifest request (`requests.get(url)`) and each per-version detail
request (`requests.get(version_info['url']).json()`) are UNGUARDED: no
`try/except` surrounds them, so a transport failure propagates out of
`check_vanilla` (modelled as `Except.error ()`). -/

/-- One element of `data['versions']` of the Mojang manifest. -/
structure VanillaVersionInfo where
  id : String
  type : String
  url : String
deriving Repr, DecidableEq

/-- The part of the per-version detail document the code reads:
`version_detail['downloads']['server']['url']`, `none` when
`'server' not in version_detail.get('downloads', {})`. -/
structure VanillaDetail where
  serverDownloadUrl : Option String
deriving Repr, DecidableEq

/-- The entry literal built by `check_vanilla` for a version. -/
def vanillaEntry (version server_url : String) : Entry :=
  { version := version
    source := "DOWNLOAD"
    server_url := some server_url
    supports_plugins := false
    supports_mods := false
    configs := []
    cleanup := [] }

/-- Network oracle for `check_vanilla`: the detail document served at each
per-version URL, or `Except.error ()` for a transport failure (an exception
raised by `requests.get`). -/
structure VanillaNet where
  fetchDetail : String → Except Unit VanillaDetail

/-- The `for version_info in data['versions']` loop of `check_vanilla`.
A failing per-version request aborts the whole loop (no handler). -/
def vanillaLoop (net : VanillaNet) (existing : String → Option Entry) :
    List VanillaVersionInfo → Except Unit (List Change)
  | [] => .ok []
  | vi :: rest =>
      if vi.type = "release" then
        match net.fetchDetail vi.url with
        | .error e => .error e
        | .ok detail =>
            match detail.serverDownloadUrl with
            | none => vanillaLoop net existing rest
            | some server_url =>
                let version := vi.id
                let entry := vanillaEntry version server_url
                let here : List Change :=
                  match existing version with
                  | none => [("vanilla", version, true, entry)]
                  | some e =>
                      if e.server_url ≠ some server_url then
                        [("vanilla", version, false, entry)]
                      else []
                Except.map (fun tail => here ++ tail)
                  (vanillaLoop net existing rest)
      else vanillaLoop net existing rest

/-- `check_vanilla`: fetch the manifest (unguarded), then run the loop over
its versions, diffing against `get_existing_versions('vanilla')`. -/
def check_vanilla (net : VanillaNet)
    (manifest : Except Unit (List VanillaVersionInfo)) (locker : Locker) :
    Except Unit (List Change) :=
  match manifest with
  | .error e => .error e
  | .ok versions =>
      vanillaLoop net (get_existing_versions locker "vanilla") versions

/-! ## Paper fetcher (`check_paper`)

The manifest request and each per-version builds request are guarded by
`try/except Exception`: a failure is logged and yields `return []`
(manifest) or `continue` (per version).  Guarded results are `Option`s. -/

/-- One element of `build_data['builds']`. -/
structure PaperBuild where
  channel : Option String
  build : Option Int
  applicationName : Option String
deriving Repr, DecidableEq

/-- The builds document for one version. -/
structure PaperBuilds where
  builds : List PaperBuild
deriving Repr, DecidableEq

/-- Network oracle for `check_paper`: `none` models a request failure
(caught by the surrounding `try/except`). -/
structure PaperNet where
  fetchBuilds : String → Option PaperBuilds

/-- The config determination of `check_paper`:
`parts = [int(p) for p in version.split('.')]` inside
`try/except ValueError` (defaulting to the legacy three-file set), then
`parts[0] == 1 and parts[1] >= 19` chooses the four-file set.  Python
`and` short-circuits, so `parts[1]` is only read when `parts[0] == 1`;
for a parsed single-component version `1` that read raises an uncaught
`IndexError` (modelled `none`). -/
def paperConfigs (version : String) : Option (List String) :=
  match parseIntList version with
  | none => some ["bukkit", "spigot", "paper"]
  | some parts =>
      match parts with
      | p0 :: rest =>
          if p0 = 1 then
            match rest with
            | p1 :: _ =>
                if p1 ≥ 19 then
                  some ["bukkit", "spigot", "paper-global", "paper-world-defaults"]
                else some ["bukkit", "spigot", "paper"]
            | [] => none
          else some ["bukkit", "spigot", "paper"]
      | [] => none

/-- The entry literal built by `check_paper`. -/
def paperEntry (version server_url : String) (configs : List String) :
    Entry :=
  { version := version
    source := "DOWNLOAD"
    server_url := some server_url
    supports_plugins := true
    supports_mods := false
    configs := configs
    cleanup := [] }

/-- `builds_url` for one version. -/
def paperBuildsUrl (version : String) : String :=
  "https://api.papermc.io/v2/projects/paper/versions/" ++ version ++ "/builds"

/-- The download URL built from the selected build. -/
def paperServerUrl (version : String) (build_number : Option Int)
    (file_name : Option String) : String :=
  "https://api.papermc.io/v2/projects/paper/versions/" ++ version
    ++ "/builds/" ++ (match build_number with
                      | some n => toString n
                      | none => "None")
    ++ "/downloads/" ++ (match file_name with
                         | some s => s
                         | none => "None")

/-- The `for version in versions` loop of `check_paper`.  The result is
`none` only for the uncaught `IndexError` of `paperConfigs`; every network
failure is handled inside the loop. -/
def paperLoop (net : PaperNet) (existing : String → Option Entry) :
    List String → Option (List Change)
  | [] => some []
  | version :: rest =>
      if version.data.contains '-' then
        -- `if '-' in version: continue`
        paperLoop net existing rest
      else
        match net.fetchBuilds (paperBuildsUrl version) with
        | none => paperLoop net existing rest   -- except: log, continue
        | some build_data =>
            let builds := build_data.builds
            if builds.isEmpty then paperLoop net existing rest
            else
              let stable_builds :=
                builds.filter (fun b => b.channel = some "default")
              match stable_builds.getLast? with
              | none => paperLoop net existing rest  -- `if not stable_builds`
              | some latest_build =>
                  let build_number := latest_build.build
                  let app_download := latest_build.applicationName
                  match app_download with
                  | none => paperLoop net existing rest
                  | some file_name =>
                      let server_url :=
                        paperServerUrl version build_number (some file_name)
                      match paperConfigs version with
                      | none => none            -- uncaught IndexError
                      | some configs =>
                          let entry := paperEntry version server_url configs
                          let here : List Change :=
                            match existing version with
                            | none => [("paper", version, true, entry)]
                            | some e =>
                                if e.server_url ≠ some server_url then
                                  [("paper", version, false, entry)]
                                else []
                          Option.map (fun tail => here ++ tail)
                            (paperLoop net existing rest)

/-- `check_paper`: a failing manifest request returns `[]`; then the loop
over `data.get('versions', [])`. -/
def check_paper (net : PaperNet) (manifest : Option (List String))
    (locker : Locker) : Option (List Change) :=
  match manifest with
  | none => some []
  | some versions =>
      paperLoop net (get_existing_versions locker "paper") versions

/-! ## Forge fetcher (`check_forge`)

One guarded request fetches the promotions map; the per-item work is pure
(URL construction from the key), so there are no per-item requests. -/

/-- `is_legacy_url`: Python
`([1,7,10] <= parts <= [1,10,0] and parts not in [[1,8],[1,8,8]])
 or parts == [1,7,2]`. -/
def forgeIsLegacyUrl (parts : List Int) : Bool :=
  (pyListLe [1, 7, 10] parts && pyListLe parts [1, 10, 0]
    && !(parts == [1, 8] || parts == [1, 8, 8]))
  || parts == [1, 7, 2]

/-- `is_modern_cleanup`: `parts[0] > 1`, or `parts[0] == 1 and
parts[1] >= 17`.  `none` models the `IndexError` Python would raise on an
empty or single-component list (unreachable after the `>= [1,5,2]` guard). -/
def forgeModernCleanup : List Int → Option Bool
  | [] => none
  | p0 :: rest =>
      if p0 > 1 then some true
      else if p0 = 1 then
        match rest with
        | p1 :: _ => some (decide (p1 ≥ 17))
        | [] => none
      else some false

/-- The `(base_url, file_name)` pair of `check_forge` for one promotion. -/
def forgeUrlParts (mc_version forge_version : String) (parts : List Int) :
    String × String :=
  if forgeIsLegacyUrl parts then
    let mc_version_full :=
      if parts == [1, 7, 2] then "mc172"
      else if parts.length == 3 then mc_version else mc_version ++ ".0"
    ("https://maven.minecraftforge.net/net/minecraftforge/forge/"
        ++ mc_version ++ "-" ++ forge_version ++ "-" ++ mc_version_full
        ++ "/",
     "forge-" ++ mc_version ++ "-" ++ forge_version ++ "-"
        ++ mc_version_full ++ "-installer.jar")
  else
    ("https://maven.minecraftforge.net/net/minecraftforge/forge/"
        ++ mc_version ++ "-" ++ forge_version ++ "/",
     "forge-" ++ mc_version ++ "-" ++ forge_version ++ "-installer.jar")

/-- The entry literal built by `check_forge`. -/
def forgeEntry (mc_version installer_url : String) (cleanup : List String) :
    Entry :=
  { version := mc_version
    source := "INSTALLER"
    installer_url := some installer_url
    installer_args := ["java", "-jar", "%file_path", "--installServer"]
    supports_plugins := false
    supports_mods := true
    configs := []
    cleanup := cleanup }

/-- The `for key, forge_version in promos.items()` loop of `check_forge`.
`none` models only the unreachable `IndexError` of `forgeModernCleanup`. -/
def forgeLoop (existing : String → Option Entry) :
    List (String × String) → Option (List Change)
  | [] => some []
  | (key, forge_version) :: rest =>
      if !pyEndsWith key "-latest" then forgeLoop existing rest
      else
        let mc_version := pyReplaceEmpty key "-latest"
        match parseIntList mc_version with
        | none => forgeLoop existing rest     -- ValueError: weird version
        | some mc_version_parts =>
            if pyListLt mc_version_parts [1, 5, 2] then
              forgeLoop existing rest         -- too old
            else
              let bf := forgeUrlParts mc_version forge_version mc_version_parts
              let installer_url := bf.1 ++ bf.2
              match forgeModernCleanup mc_version_parts with
              | none => none
              | some is_modern_cleanup =>
                  let cleanup :=
                    bf.2 :: (if is_modern_cleanup then
                              ["user_jvm_args.txt", "run.bat", "run.sh"]
                            else [])
                  let entry := forgeEntry mc_version installer_url cleanup
                  let here : List Change :=
                    match existing mc_version with
                    | none => [("forge", mc_version, true, entry)]
                    | some e =>
                        if e.installer_url ≠ some installer_url then
                          [("forge", mc_version, false, entry)]
                        else []
                  Option.map (fun tail => here ++ tail)
                    (forgeLoop existing rest)

/-- `check_forge`: a failing promotions request returns `[]` (guarded);
otherwise the loop over `data.get('promos', {}).items()`. -/
def check_forge (promos : Option (List (String × String)))
    (locker : Locker) : Option (List Change) :=
  match promos with
  | none => some []
  | some items => forgeLoop (get_existing_versions locker "forge") items

/-! ## NeoForge fetcher (`check_neoforge`)

One guarded request fetches the Maven metadata; the rest is pure.  A
missing `versioning`/`versions` tag also yields `[]`, so the input is a
single `Option` covering both. -/

/-- The Minecraft version derived from a NeoForge `major.minor[...]`
version: defined for `major >= 20`, else Python leaves `mc_version = None`
and skips the item.  (The source also computes a `patch` component from
`parts[2]` but never uses it.) -/
def neoMcVersion (major minor : Int) : Option String :=
  if major ≥ 20 then
    some (if minor == 0 then "1." ++ toString major
          else "1." ++ toString major ++ "." ++ toString minor)
  else none

/-- The first `for neo_version in all_versions` loop: build the
`latest_versions` dict mapping a Minecraft version to the numerically
highest non-beta NeoForge version.  `none` models the uncaught
`IndexError` of `parts[1]` on a single-component version. -/
def neoCollect (acc : List (String × String)) :
    List String → Option (List (String × String))
  | [] => some acc
  | neo_version :: rest =>
      if pyEndsWith neo_version "-beta" then neoCollect acc rest
      else
        match parseIntList neo_version with
        | none => neoCollect acc rest   -- ValueError: unparseable
        | some parts =>
            match parts with
            | major :: minor :: _ =>
                match neoMcVersion major minor with
                | none => neoCollect acc rest  -- `if not mc_version: continue`
                | some mc_version =>
                    match dictLookup acc mc_version with
                    | none => neoCollect (dictSet acc mc_version neo_version) rest
                    | some current_latest =>
                        match parseIntList current_latest,
                              parseIntList neo_version with
                        | some curr_parts, some new_parts =>
                            if pyListLt curr_parts new_parts then
                              neoCollect (dictSet acc mc_version neo_version) rest
                            else neoCollect acc rest
                        | _, _ => neoCollect acc rest  -- ValueError: pass
            | _ => none

/-- The NeoForge installer URL for one NeoForge version. -/
def neoforgeUrl (neo_version : String) : String :=
  "https://maven.neoforged.net/releases/net/neoforged/neoforge/"
    ++ neo_version ++ "/neoforge-" ++ neo_version ++ "-installer.jar"

/-- The entry literal built by `check_neoforge`. -/
def neoforgeEntry (mc_version neo_version : String) : Entry :=
  { version := mc_version
    source := "INSTALLER"
    installer_url := some (neoforgeUrl neo_version)
    installer_args := ["java", "-jar", "%file_path", "--installServer"]
    supports_plugins := false
    supports_mods := true
    configs := []
    cleanup := ["neoforge-" ++ neo_version ++ "-installer.jar",
                "user_jvm_args.txt", "run.bat", "run.sh"] }

/-- The second `for mc_version, neo_version in latest_versions.items()`
loop of `check_neoforge`: pure emission. -/
def neoEmitLoop (existing : String → Option Entry) :
    List (String × String) → List Change
  | [] => []
  | (mc_version, neo_version) :: rest =>
      let installer_url := neoforgeUrl neo_version
      let entry := neoforgeEntry mc_version neo_version
      let here : List Change :=
        match existing mc_version with
        | none => [("neoforge", mc_version, true, entry)]
        | some e =>
            if e.installer_url ≠ some installer_url then
              [("neoforge", mc_version, false, entry)]
            else []
      here ++ neoEmitLoop existing rest

/-- `check_neoforge`: failing metadata request or missing
`versioning`/`versions` tag returns `[]`; otherwise collect the latest
versions and emit changes. -/
def check_neoforge (metadata : Option (List String)) (locker : Locker) :
    Option (List Change) :=
  match metadata with
  | none => some []
  | some all_versions =>
      match neoCollect [] all_versions with
      | none => none
      | some latest_versions =>
          some (neoEmitLoop (get_existing_versions locker "neoforge")
                  latest_versions)

/-! ## URL validator (`is_url_valid`) -/

/-- Outcome of one HTTP probe: a response with a status code, or a
transport failure (`requests.RequestException`). -/
inductive ProbeResult
  | status (code : Nat)
  | transportFail
deriving Repr, DecidableEq

/-- Which probes `is_url_valid` issued, in order. -/
inductive ProbeKind
  | head
  | get
deriving Repr, DecidableEq

/-- The streamed-GET block of `is_url_valid`: `404` is invalid, any other
response valid, a transport failure invalid. -/
def getProbeValid : ProbeResult → Bool
  | .status code => !(code == 404)
  | .transportFail => false

/-- `is_url_valid`, instrumented with the list of probes issued.  The
`url` argument is `none` for Python `None`; `if not url` rejects `None`
and the empty string before any request.  The HEAD block: `404` invalid;
`405`/`403` fall through (`pass`); any other status valid; a
`RequestException` falls through.  Falling through reaches the GET block. -/
def is_url_validT (headResp getResp : ProbeResult) (url : Option String) :
    Bool × List ProbeKind :=
  match url with
  | none => (false, [])
  | some u =>
      if u = "" then (false, [])
      else
        match headResp with
        | .status code =>
            if code == 404 then (false, [.head])
            else if code == 405 || code == 403 then
              (getProbeValid getResp, [.head, .get])
            else (true, [.head])
        | .transportFail => (getProbeValid getResp, [.head, .get])

/-- `is_url_valid`: the Boolean result alone. -/
def is_url_valid (headResp getResp : ProbeResult) (url : Option String) :
    Bool :=
  (is_url_validT headResp getResp url).1

/-! ## Change publisher (`create_pr` and the `run` loop)

Shell commands are modelled by an oracle `runCmd` giving each command's
success (`run_command` returns `True` on exit 0, `False` otherwise, always
logging a failure); the GitHub API queries of `has_open_pr` and
`close_outdated_pr` by oracles for their results. -/

/-- Environment of one publisher run. -/
structure PubEnv where
  runCmd : List String → Bool
  hasOpenPR : String → Bool
  /-- The `"\nCloses #N"...` message `close_outdated_pr(t, v)` returns
  (empty when nothing was closed or the API query failed). -/
  closeOutdatedMsg : String → String → String
  /-- `datetime.now().strftime('%Y%m%d-%H%M%S')`. -/
  now : String

/-- `['git', 'checkout', 'main']`. -/
def gitCheckoutMain : List String := ["git", "checkout", "main"]

/-- `['git', 'pull', 'origin', 'main']`. -/
def gitPullMain : List String := ["git", "pull", "origin", "main"]

/-- The PR title: `Add`/`Update` + capitalized type + version. -/
def prTitle (server_type version : String) (is_new : Bool) : String :=
  let st := pyCapitalize server_type
  if is_new then "Add " ++ st ++ " " ++ version
  else "Update " ++ st ++ " " ++ version

/-- The branch name `auto-{action}-{type}-{version}-{timestamp}`. -/
def branchName (action server_type version now : String) : String :=
  "auto-" ++ action ++ "-" ++ server_type ++ "-" ++ version ++ "-" ++ now

/-- `'Yes' if b else 'No'`. -/
def yesNo (b : Bool) : String := if b then "Yes" else "No"

/-- `', '.join(entry['configs']) if entry['configs'] else 'None'`. -/
def configsText (configs : List String) : String :=
  if configs.isEmpty then "None" else interc ", " configs

/-- `entry.get('server_url') or entry.get('installer_url', 'N/A')`:
Python `or` yields the right operand whenever the left is falsy
(`None` or the empty string). -/
def displayUrl (entry : Entry) : String :=
  let fallback := match entry.installer_url with
                  | some s => s
                  | none => "N/A"
  match entry.server_url with
  | some s => if s = "" then fallback else s
  | none => fallback

/-- The PR body for a new version. -/
def prBodyNew (server_type version : String) (entry : Entry) : String :=
  let st := pyCapitalize server_type
  "## New Version Available\n\n**Server Type:** " ++ st
    ++ "  \n**Version:** " ++ version
    ++ "  \n**Source:** " ++ entry.source
    ++ "\n\n### Details\n- Supports Plugins: " ++ yesNo entry.supports_plugins
    ++ "\n- Supports Mods: " ++ yesNo entry.supports_mods
    ++ "\n- Configs: " ++ configsText entry.configs
    ++ "\n\n### Download URL\n```\n" ++ displayUrl entry
    ++ "\n```\n\n---\n*This PR was automatically created by the version checker workflow.*\n"

/-- The PR body for an updated version (before the closed-PR note). -/
def prBodyUpdate (server_type version : String) (entry : Entry) : String :=
  let st := pyCapitalize server_type
  "## Version Update\n\n**Server Type:** " ++ st
    ++ "  \n**Version:** " ++ version
    ++ "  \n**Source:** " ++ entry.source
    ++ "\n\n### What Changed\nUpdated download URL or build information for this version.\n\n### New URL\n```\n"
    ++ displayUrl entry
    ++ "\n```\n\n---\n*This PR was automatically created by the version checker workflow.*\n"

/-- `if server_type not in self.locker_data['servers']:
       self.locker_data['servers'][server_type] = []`. -/
def lockerEnsureType (locker : Locker) (server_type : String) : Locker :=
  match dictLookup locker.servers server_type with
  | some _ => locker
  | none => ⟨dictSet locker.servers server_type []⟩

/-- The update-in-place loop of `create_pr`: replace the FIRST entry whose
version matches, then `break`; leave the list unchanged if none matches. -/
def replaceFirst (entries : List Entry) (version : String) (entry : Entry) :
    List Entry :=
  match entries with
  | [] => []
  | e :: rest =>
      if e.version = version then entry :: rest
      else e :: replaceFirst rest version entry

/-- The locker mutation of `create_pr` (lines 131–165): ensure the
server-type key, then append (`is_new`) or replace in place. -/
def updateLocker (locker : Locker) (server_type version : String)
    (is_new : Bool) (entry : Entry) : Locker :=
  let locker' := lockerEnsureType locker server_type
  let entries := (dictLookup locker'.servers server_type).getD []
  let entries' :=
    if is_new then entries ++ [entry] else replaceFirst entries version entry
  ⟨dictSet locker'.servers server_type entries'⟩

/-- Result of one `create_pr` call: the locker file afterwards, the shell
commands attempted in order, and whether the `gh pr create` step ran
successfully. -/
structure PubResult where
  file : Locker
  trace : List (List String)
  createdPR : Bool
deriving Repr, DecidableEq

/-- `create_pr(server_type, version, is_new, entry)` against the file
state `file` (the locker file is re-read inside, so the file IS the input
document).  The results of the first two commands are not consulted by the
source; every later command is guarded by `if not self.run_command(...):
return`.  The locker file path is the default `locker.json`. -/
def create_pr (env : PubEnv) (file : Locker) (server_type version : String)
    (is_new : Bool) (entry : Entry) : PubResult :=
  let c1 := gitCheckoutMain
  let c2 := gitPullMain
  let _ := env.runCmd c1
  let _ := env.runCmd c2
  let action := if is_new then "new" else "update"
  let pr_title := prTitle server_type version is_new
  if env.hasOpenPR pr_title then
    { file := file, trace := [c1, c2], createdPR := false }
  else
    let branch := branchName action server_type version env.now
    let c3 := ["git", "checkout", "-b", branch]
    if !env.runCmd c3 then
      { file := file, trace := [c1, c2, c3], createdPR := false }
    else
      -- `self.locker_data = self.load_locker()`; mutation; `self.save_locker()`
      let commit_msg :=
        let st := pyCapitalize server_type
        if is_new then "locker: Add " ++ st ++ " " ++ version
        else "locker: Update " ++ st ++ " " ++ version
      let pr_label := if is_new then "release" else "update"
      let pr_body :=
        if is_new then prBodyNew server_type version entry
        else
          let closed_note := env.closeOutdatedMsg server_type version
          prBodyUpdate server_type version entry
            ++ (if closed_note ≠ "" then "\n\n" ++ closed_note else "")
      let newFile := updateLocker file server_type version is_new entry
      let c4 := ["git", "add", "locker.json"]
      if !env.runCmd c4 then
        { file := newFile, trace := [c1, c2, c3, c4], createdPR := false }
      else
        let c5 := ["git", "commit", "-m", commit_msg]
        if !env.runCmd c5 then
          { file := newFile, trace := [c1, c2, c3, c4, c5], createdPR := false }
        else
          let c6 := ["git", "push", "-u", "origin", branch]
          if !env.runCmd c6 then
            { file := newFile, trace := [c1, c2, c3, c4, c5, c6],
              createdPR := false }
          else
            let c7 := ["gh", "pr", "create", "--title", pr_title,
                       "--body", pr_body, "--head", branch,
                       "--base", "main", "--label", pr_label]
            { file := newFile, trace := [c1, c2, c3, c4, c5, c6, c7],
              createdPR := env.runCmd c7 }

/-- `check_url = entry.get('server_url') or entry.get('installer_url')`. -/
def checkUrl (entry : Entry) : Option String :=
  match entry.server_url with
  | some s => if s = "" then entry.installer_url else some s
  | none => entry.installer_url

/-- Outcome the `run` loop records for one change. -/
inductive ChangeOutcome
  | skippedNoUrl
  | skippedInvalidUrl
  | published (r : PubResult)
deriving Repr, DecidableEq

/-- Environment of a whole `run`: the publisher oracles plus per-URL probe
results for `is_url_valid`. -/
structure RunEnv where
  pub : PubEnv
  urlHead : String → ProbeResult
  urlGet : String → ProbeResult

/-- The `for server_type, version, is_new, entry in changes` loop of
`run`: validate the URL, then publish; a URL failing validation (or
missing) only skips that change, and each change is processed regardless
of earlier outcomes (`create_pr` raises nothing in this model; the source
additionally guards it with `try/except`). -/
def processChanges (env : RunEnv) (file : Locker) :
    List Change → Locker × List ChangeOutcome
  | [] => (file, [])
  | (server_type, version, is_new, entry) :: rest =>
      let step : ChangeOutcome × Locker :=
        match checkUrl entry with
        | none => (.skippedNoUrl, file)
        | some url =>
            if url = "" then (.skippedNoUrl, file)
            else if is_url_valid (env.urlHead url) (env.urlGet url)
                    (some url) then
              let r := create_pr env.pub file server_type version is_new entry
              (.published r, r.file)
            else (.skippedInvalidUrl, file)
      let next := processChanges env step.2 rest
      (next.1, step.1 :: next.2)

/-! ## Locker file text: `load_locker` / `save_locker`

`save_locker` is `json.dump(self.locker_data, f, indent=4)` and
`load_locker` is `json.load(f)` (followed by the program's access
`locker_data['servers']`), modelled at the level of the file TEXT for
documents of the locker shape of spec §3: a top-level object with the
single key `servers`, mapping each server-type name to an array of entry
objects whose values are strings, booleans, or arrays of strings (the
only value shapes the locker holds; the generic JSON values outside this
schema are out of the model).  `json.dump` uses `ensure_ascii` escaping
and, with `indent=4`, the separators `(',', ': ')`; `json.load` accepts
arbitrary JSON whitespace between tokens and the standard string
escapes. -/

/-- A JSON value as it occurs inside a locker entry. -/
inductive JVal
  | str (s : String)
  | bool (b : Bool)
  | strList (xs : List String)
deriving Repr, DecidableEq

/-- An entry object: ordered fields. -/
abbrev EntryDoc := List (String × JVal)

/-- The `servers` mapping: ordered server-type keys with entry arrays. -/
abbrev ServersDoc := List (String × List EntryDoc)

/-- The low hex digit characters used by `\uXXXX` escapes. -/
def hexDigitChar (n : Nat) : Char :=
  if n < 10 then Char.ofNat (48 + n) else Char.ofNat (87 + n)

/-- A `\uXXXX` escape for a code point below `0x10000`. -/
def uEscape (n : Nat) : String :=
  "\\u" ++ String.mk [hexDigitChar (n / 4096 % 16), hexDigitChar (n / 256 % 16),
                      hexDigitChar (n / 16 % 16), hexDigitChar (n % 16)]

/-- Python `json.dump` character escaping with `ensure_ascii=True`:
`"` and `\` and the control shorts are backslash-escaped, any other
character outside printable ASCII becomes `\uXXXX` (a surrogate pair
above the BMP); printable ASCII stands for itself. -/
def escapeChar (c : Char) : String :=
  if c = '"' then "\\\""
  else if c = '\\' then "\\\\"
  else if c = '\x08' then "\\b"
  else if c = '\x0c' then "\\f"
  else if c = '\n' then "\\n"
  else if c = '\r' then "\\r"
  else if c = '\t' then "\\t"
  else if 32 ≤ c.toNat ∧ c.toNat ≤ 126 then String.mk [c]
  else if c.toNat < 65536 then uEscape c.toNat
  else
    uEscape (55296 + (c.toNat - 65536) / 1024)
      ++ uEscape (56320 + (c.toNat - 65536) % 1024)

/-- Concatenation of a list of strings. -/
def strConcat : List String → String
  | [] => ""
  | s :: rest => s ++ strConcat rest

/-- A dumped JSON string literal. -/
def jstr (s : String) : String :=
  "\"" ++ strConcat (s.data.map escapeChar) ++ "\""

/-- The indentation of depth `d` under `indent=4`. -/
def ind (d : Nat) : String := String.mk (List.replicate (4 * d) ' ')

/-- A dumped JSON array at depth `d` from already-dumped element texts:
`[]` when empty, otherwise one element per line at depth `d + 1`. -/
def dumpArrBody (d : Nat) (items : List String) : String :=
  match items with
  | [] => "[]"
  | _ => "[\n" ++ ind (d + 1)
      ++ interc (",\n" ++ ind (d + 1)) items
      ++ "\n" ++ ind d ++ "]"

/-- A dumped JSON object at depth `d` from key/dumped-value pairs, with
the `indent=4` key separator `": "`. -/
def dumpObjBody (d : Nat) (items : List (String × String)) : String :=
  match items with
  | [] => "\x7b\x7d"
  | _ => "\x7b\n" ++ ind (d + 1)
      ++ interc (",\n" ++ ind (d + 1))
          (items.map (fun kv => jstr kv.1 ++ ": " ++ kv.2))
      ++ "\n" ++ ind d ++ "\x7d"

/-- A dumped entry value at depth `d`. -/
def dumpJVal (d : Nat) : JVal → String
  | .str s => jstr s
  | .bool b => if b then "true" else "false"
  | .strList xs => dumpArrBody d (xs.map jstr)

/-- A dumped entry object at depth `d`. -/
def dumpEntryDoc (d : Nat) (e : EntryDoc) : String :=
  dumpObjBody d (e.map (fun kv => (kv.1, dumpJVal (d + 1) kv.2)))

/-- A dumped entry array at depth `d`. -/
def dumpEntryList (d : Nat) (es : List EntryDoc) : String :=
  dumpArrBody d (es.map (dumpEntryDoc (d + 1)))

/-- The dumped `servers` object at depth `d`. -/
def dumpServers (d : Nat) (svs : ServersDoc) : String :=
  dumpObjBody d (svs.map (fun kv => (kv.1, dumpEntryList (d + 1) kv.2)))

/-- `save_locker`: `json.dump(locker_data, f, indent=4)` of the document
`{"servers": ...}` (no trailing newline). -/
def save_locker (doc : ServersDoc) : String :=
  dumpObjBody 0 [("servers", dumpServers 1 doc)]

/-- JSON inter-token whitespace. -/
def isJsonWs (c : Char) : Bool :=
  c = ' ' || c = '\t' || c = '\n' || c = '\r'

/-- Skip inter-token whitespace. -/
def skipWs : List Char → List Char
  | [] => []
  | c :: rest => if isJsonWs c then skipWs rest else c :: rest

/-- Hexadecimal digit value. -/
def hexVal (c : Char) : Option Nat :=
  if '0' ≤ c ∧ c ≤ '9' then some (c.toNat - 48)
  else if 'a' ≤ c ∧ c ≤ 'f' then some (c.toNat - 87)
  else if 'A' ≤ c ∧ c ≤ 'F' then some (c.toNat - 55)
  else none

/-- Four hex digits of a `\uXXXX` escape. -/
def parseHex4 : List Char → Option (Nat × List Char)
  | a :: b :: c :: d :: rest =>
      match hexVal a, hexVal b, hexVal c, hexVal d with
      | some x, some y, some z, some w =>
          some (4096 * x + 256 * y + 16 * z + w, rest)
      | _, _, _, _ => none
  | _ => none

/-- The single-character escapes JSON accepts after a backslash. -/
def simpleEscape (e : Char) : Option Char :=
  if e = '"' then some '"'
  else if e = '\\' then some '\\'
  else if e = '/' then some '/'
  else if e = 'b' then some '\x08'
  else if e = 'f' then some '\x0c'
  else if e = 'n' then some '\n'
  else if e = 'r' then some '\r'
  else if e = 't' then some '\t'
  else none

/-- A `uXXXX` escape tail (after `\u`), combining surrogate pairs as
`json.loads` does; a lone surrogate is out of the model. -/
def parseUEscape (cs : List Char) : Option (Char × List Char) :=
  match parseHex4 cs with
  | none => none
  | some (n, rest) =>
      if 55296 ≤ n ∧ n ≤ 56319 then
        match rest with
        | '\\' :: 'u' :: rest2 =>
            match parseHex4 rest2 with
            | some (m, rest3) =>
                if 56320 ≤ m ∧ m ≤ 57343 then
                  some (Char.ofNat (65536 + (n - 55296) * 1024 + (m - 56320)),
                        rest3)
                else none
            | none => none
        | _ => none
      else if 56320 ≤ n ∧ n ≤ 57343 then none
      else some (Char.ofNat n, rest)

/-- The body of a JSON string after the opening quote, up to and
including the closing quote.  Fuel bounds the characters consumed. -/
def parseStrBody : Nat → List Char → Option (String × List Char)
  | _, [] => none
  | 0, _ :: _ => none
  | fuel + 1, c :: rest =>
      if c = '"' then some ("", rest)
      else if c = '\\' then
        match rest with
        | [] => none
        | e :: rest1 =>
            match simpleEscape e with
            | some ch =>
                (parseStrBody fuel rest1).map
                  (fun sr => (String.mk (ch :: sr.1.data), sr.2))
            | none =>
                if e = 'u' then
                  match parseUEscape rest1 with
                  | some (ch, rest2) =>
                      (parseStrBody fuel rest2).map
                        (fun sr => (String.mk (ch :: sr.1.data), sr.2))
                  | none => none
                else none
      else
        (parseStrBody fuel rest).map
          (fun sr => (String.mk (c :: sr.1.data), sr.2))

/-- One or more string elements of an array, from after the `[`,
consuming the closing `]`. -/
def parseStrItems : Nat → List Char → Option (List String × List Char)
  | 0, _ => none
  | fuel + 1, cs =>
      match skipWs cs with
      | '"' :: rest =>
          match parseStrBody fuel rest with
          | none => none
          | some (s, r) =>
              match skipWs r with
              | ',' :: r2 =>
                  (parseStrItems fuel r2).map (fun xsr => (s :: xsr.1, xsr.2))
              | ']' :: r2 => some ([s], r2)
              | _ => none
      | _ => none

/-- An entry value: a string, `true`/`false`, or an array of strings. -/
def parseJVal (fuel : Nat) (cs : List Char) : Option (JVal × List Char) :=
  match skipWs cs with
  | '"' :: rest =>
      (parseStrBody fuel rest).map (fun sr => (JVal.str sr.1, sr.2))
  | 't' :: 'r' :: 'u' :: 'e' :: rest => some (.bool true, rest)
  | 'f' :: 'a' :: 'l' :: 's' :: 'e' :: rest => some (.bool false, rest)
  | '[' :: rest =>
      match skipWs rest with
      | ']' :: r2 => some (.strList [], r2)
      | _ => (parseStrItems fuel rest).map (fun xsr => (.strList xsr.1, xsr.2))
  | _ => none

/-- One or more `"key": value` fields of an entry object, from after the
`\x7b`, consuming the closing `\x7d`. -/
def parseEntryFields : Nat → List Char → Option (EntryDoc × List Char)
  | 0, _ => none
  | fuel + 1, cs =>
      match skipWs cs with
      | '"' :: rest =>
          match parseStrBody fuel rest with
          | none => none
          | some (k, r) =>
              match skipWs r with
              | ':' :: r2 =>
                  match parseJVal fuel r2 with
                  | none => none
                  | some (v, r3) =>
                      match skipWs r3 with
                      | ',' :: r4 =>
                          (parseEntryFields fuel r4).map
                            (fun er => ((k, v) :: er.1, er.2))
                      | '\x7d' :: r4 => some ([(k, v)], r4)
                      | _ => none
              | _ => none
      | _ => none

/-- An entry object. -/
def parseEntryObj (fuel : Nat) (cs : List Char) :
    Option (EntryDoc × List Char) :=
  match skipWs cs with
  | '\x7b' :: rest =>
      match skipWs rest with
      | '\x7d' :: r2 => some ([], r2)
      | _ => parseEntryFields fuel rest
  | _ => none

/-- One or more entry objects of an array, from after the `[`. -/
def parseEntryItems : Nat → List Char → Option (List EntryDoc × List Char)
  | 0, _ => none
  | fuel + 1, cs =>
      match parseEntryObj fuel cs with
      | none => none
      | some (e, r) =>
          match skipWs r with
          | ',' :: r2 =>
              (parseEntryItems fuel r2).map (fun er => (e :: er.1, er.2))
          | ']' :: r2 => some ([e], r2)
          | _ => none

/-- An array of entry objects. -/
def parseEntryList (fuel : Nat) (cs : List Char) :
    Option (List EntryDoc × List Char) :=
  match skipWs cs with
  | '[' :: rest =>
      match skipWs rest with
      | ']' :: r2 => some ([], r2)
      | _ => parseEntryItems fuel rest
  | _ => none

/-- One or more `"type": [entries]` fields of the servers object. -/
def parseServerFields : Nat → List Char → Option (ServersDoc × List Char)
  | 0, _ => none
  | fuel + 1, cs =>
      match skipWs cs with
      | '"' :: rest =>
          match parseStrBody fuel rest with
          | none => none
          | some (k, r) =>
              match skipWs r with
              | ':' :: r2 =>
                  match parseEntryList fuel r2 with
                  | none => none
                  | some (es, r3) =>
                      match skipWs r3 with
                      | ',' :: r4 =>
                          (parseServerFields fuel r4).map
                            (fun sr => ((k, es) :: sr.1, sr.2))
                      | '\x7d' :: r4 => some ([(k, es)], r4)
                      | _ => none
              | _ => none
      | _ => none

/-- The servers object. -/
def parseServersObj (fuel : Nat) (cs : List Char) :
    Option (ServersDoc × List Char) :=
  match skipWs cs with
  | '\x7b' :: rest =>
      match skipWs rest with
      | '\x7d' :: r2 => some ([], r2)
      | _ => parseServerFields fuel rest
  | _ => none

/-- After the closing brace of the servers object: only whitespace may
remain, then the parsed document is returned. -/
def loadClose (doc : ServersDoc) (r4 : List Char) : Option ServersDoc :=
  match skipWs r4 with
  | '\x7d' :: r5 => if skipWs r5 = [] then some doc else none
  | _ => none

/-- After the `servers` key: expect `:` and the servers object. -/
def loadColon (fuel : Nat) (r2 : List Char) : Option ServersDoc :=
  match skipWs r2 with
  | ':' :: r3 =>
      match parseServersObj fuel r3 with
      | some (doc, r4) => loadClose doc r4
      | none => none
  | _ => none

/-- Inside the top-level object: expect the single key `servers`. -/
def loadKey (fuel : Nat) (rest : List Char) : Option ServersDoc :=
  match skipWs rest with
  | '"' :: r1 =>
      match parseStrBody fuel r1 with
      | some (k, r2) => if k = "servers" then loadColon fuel r2 else none
      | none => none
  | _ => none

/-- The top-level object opening. -/
def loadTop (fuel : Nat) (cs : List Char) : Option ServersDoc :=
  match skipWs cs with
  | '\x7b' :: rest => loadKey fuel rest
  | _ => none

/-- `load_locker`: parse the locker file text — a top-level object with
the single key `servers` — and return the servers document, `none` on
any malformed input (where `json.load` raises, or the document is not of
the locker shape). -/
def load_locker (s : String) : Option ServersDoc :=
  loadTop (s.data.length + 1) s.data

/-- Printable ASCII needing no JSON escaping (every string the locker
actually holds — versions, URLs, file names, config ids — is of this
kind). -/
def plainCharB (c : Char) : Bool :=
  32 ≤ c.toNat && c.toNat ≤ 126 && c ≠ '"' && c ≠ '\\'

/-- A string of plain characters. -/
def plainStrB (s : String) : Bool := s.data.all plainCharB

/-- An entry value with plain strings. -/
def plainJValB : JVal → Bool
  | .str s => plainStrB s
  | .bool _ => true
  | .strList xs => xs.all plainStrB

/-- An entry object with plain keys and values. -/
def plainEntryB (e : EntryDoc) : Bool :=
  e.all (fun kv => plainStrB kv.1 && plainJValB kv.2)

/-- A servers document with plain keys and values. -/
def plainServersB (doc : ServersDoc) : Bool :=
  doc.all (fun kv => plainStrB kv.1 && kv.2.all plainEntryB)

/-! ## Concrete fixtures used by witnesses and counterexamples -/

/-- Concrete vanilla network for the C1 witness. -/
def c1VanillaNet : VanillaNet :=
  ⟨fun _ => .ok ⟨some "https://pistonmeta/server.jar"⟩⟩

/-- Concrete manifest item for the C1 witness. -/
def c1Vi : VanillaVersionInfo :=
  ⟨"1.21", "release", "https://pistonmeta/1.21.json"⟩

/-- Concrete paper build for the C1 witness. -/
def c1PaperBuild : PaperBuild := ⟨some "default", some 5, some "paper-1.20-5.jar"⟩

/-- Concrete paper network for the C1 witness. -/
def c1PaperNet : PaperNet := ⟨fun _ => some ⟨[c1PaperBuild]⟩⟩

/-- Stale paper entry (older build URL) for the C1 witness. -/
def c1PaperOld : Entry :=
  { version := "1.20"
    source := "DOWNLOAD"
    server_url := some "https://old"
    supports_plugins := true
    supports_mods := false
    configs := ["bukkit", "spigot", "paper-global", "paper-world-defaults"]
    cleanup := [] }

/-- Locker holding the stale paper entry. -/
def c1PaperLocker : Locker := ⟨[("paper", [c1PaperOld])]⟩

/-- The forge installer URL the C1 witness expects. -/
def c1ForgeUrl : String :=
  "https://maven.minecraftforge.net/net/minecraftforge/forge/1.20.1-47.4.13/forge-1.20.1-47.4.13-installer.jar"

/-- Up-to-date forge entry for the C1 witness (same URL: no change). -/
def c1ForgeOld : Entry :=
  { version := "1.20.1"
    source := "INSTALLER"
    installer_url := some c1ForgeUrl
    installer_args := ["java", "-jar", "%file_path", "--installServer"]
    supports_plugins := false
    supports_mods := true
    configs := []
    cleanup := [] }

/-- Locker holding the up-to-date forge entry. -/
def c1ForgeLocker : Locker := ⟨[("forge", [c1ForgeOld])]⟩

/-- Failing vanilla network for the C2 counterexample. -/
def c2FailNet : VanillaNet := ⟨fun _ => .error ()⟩

/-- Failing paper network for the C2 witness. -/
def c2PaperFailNet : PaperNet := ⟨fun _ => none⟩

/-- Publisher environment for the C3 counterexample: `git checkout main`
fails, everything else succeeds. -/
def c3Env : PubEnv :=
  { runCmd := fun c => !(c == gitCheckoutMain)
    hasOpenPR := fun _ => false
    closeOutdatedMsg := fun _ _ => ""
    now := "20250101-000000" }

/-- Entry used by the C3 counterexample and witness. -/
def c3Entry : Entry := vanillaEntry "1.21" "https://pistonmeta/server.jar"

/-- Publisher environment for the C3 counterexample:
`git pull origin main` fails, everything else succeeds. -/
def c3EnvPull : PubEnv :=
  { runCmd := fun c => !(c == gitPullMain)
    hasOpenPR := fun _ => false
    closeOutdatedMsg := fun _ _ => ""
    now := "20250101-000000" }

/-- Publisher environment for the C3 witness: branch creation fails. -/
def c3wEnv : PubEnv :=
  { runCmd := fun c => !(c.take 3 == ["git", "checkout", "-b"])
    hasOpenPR := fun _ => false
    closeOutdatedMsg := fun _ _ => ""
    now := "20250101-000000" }

/-- Publisher environment for the C3 witness: `git commit` fails. -/
def c3wEnvCommit : PubEnv :=
  { runCmd := fun c => !(c.take 2 == ["git", "commit"])
    hasOpenPR := fun _ => false
    closeOutdatedMsg := fun _ _ => ""
    now := "20250101-000000" }

/-- Publisher environment for the C3 witness: `git push` fails. -/
def c3wEnvPush : PubEnv :=
  { runCmd := fun c => !(c.take 2 == ["git", "push"])
    hasOpenPR := fun _ => false
    closeOutdatedMsg := fun _ _ => ""
    now := "20250101-000000" }

/-- Publisher environment for the C9 witness: a PR titled
"Add Vanilla 1.21" is already open. -/
def c9Env : PubEnv :=
  { runCmd := fun _ => true
    hasOpenPR := fun s => s == "Add Vanilla 1.21"
    closeOutdatedMsg := fun _ _ => ""
    now := "20250101-000000" }

/-- Locker for the C8 witness. -/
def c8Old : Entry := vanillaEntry "1.20" "https://old/server.jar"

/-- Locker holding one vanilla entry for the C8 witness. -/
def c8Locker : Locker := ⟨[("vanilla", [c8Old])]⟩

/-- Document for the C7 witness: one vanilla entry with the locker's
field shapes. -/
def c7Doc : ServersDoc :=
  [("vanilla",
    [[("version", JVal.str "1.21"),
      ("source", JVal.str "DOWNLOAD"),
      ("server_url", JVal.str "https://piston-data.mojang.com/server.jar"),
      ("supports_plugins", JVal.bool false),
      ("supports_mods", JVal.bool false),
      ("configs", JVal.strList []),
      ("cleanup", JVal.strList [])]]),
   ("forge", [])]

/-! ## Helper lemmas -/

theorem string_append_assoc (a b c : String) :
    a ++ b ++ c = a ++ (b ++ c) := by
  cases a
  cases b
  cases c
  show String.mk _ = String.mk _
  rw [List.append_assoc]

theorem except_map_nil (x : Except Unit (List Change)) :
    Except.map (fun t => ([] : List Change) ++ t) x = x := by
  cases x <;> rfl

theorem option_map_nil (x : Option (List Change)) :
    Option.map (fun t => ([] : List Change) ++ t) x = x := by
  cases x <;> rfl

theorem except_map_same (x : Except Unit (List Change)) :
    Except.map (fun t => t) x = x := by
  cases x <;> rfl

theorem option_map_same (x : Option (List Change)) :
    Option.map (fun t => t) x = x := by
  cases x <;> rfl

/-! ## Claim theorems -/

/-- C1: for every fetcher, given the derived entry for a version and the
existing locker entries for that server type: a version absent from the
locker emits exactly one change with `is_new = true`; a present entry with
a differing URL (`server_url` for vanilla/paper, `installer_url` for
forge/neoforge) emits exactly one change with `is_new = false` carrying
the new entry; a present entry with the same URL emits no change. -/
theorem fetcher_diff_emission
    -- vanilla scenario: a release version whose detail fetch succeeds
    (vnet : VanillaNet) (vlocker : Locker) (vi : VanillaVersionInfo)
    (vrest : List VanillaVersionInfo) (vsu : String)
    (hvrel : vi.type = "release")
    (hvfetch : vnet.fetchDetail vi.url = .ok ⟨some vsu⟩)
    -- paper scenario: a hyphen-free version whose builds fetch succeeds
    (pnet : PaperNet) (plocker : Locker) (pver : String)
    (prest : List String) (pbd : PaperBuilds) (pb : PaperBuild)
    (pfn : String) (pcfg : List String)
    (hpdash : pver.data.contains '-' = false)
    (hpfetch : pnet.fetchBuilds (paperBuildsUrl pver) = some pbd)
    (hpne : pbd.builds.isEmpty = false)
    (hpstable :
      (pbd.builds.filter (fun b => b.channel = some "default")).getLast?
        = some pb)
    (hpapp : pb.applicationName = some pfn)
    (hpcfgs : paperConfigs pver = some pcfg)
    -- forge scenario: a `-latest` promotion at or above 1.5.2
    (flocker : Locker) (fkey ffv : String) (frest : List (String × String))
    (fparts : List Int) (fmodern : Bool)
    (hfend : pyEndsWith fkey "-latest" = true)
    (hfparse : parseIntList (pyReplaceEmpty fkey "-latest") = some fparts)
    (hfge : pyListLt fparts [1, 5, 2] = false)
    (hfmod : forgeModernCleanup fparts = some fmodern)
    -- neoforge scenario: any collected (mc version, neoforge version) pair
    (nlocker : Locker) (nmc nneo : String)
    (nrest : List (String × String)) :
    -- vanilla emission
    ((get_existing_versions vlocker "vanilla" vi.id = none →
        vanillaLoop vnet (get_existing_versions vlocker "vanilla")
            (vi :: vrest)
          = Except.map
              (fun t => ("vanilla", vi.id, true, vanillaEntry vi.id vsu) :: t)
              (vanillaLoop vnet (get_existing_versions vlocker "vanilla")
                vrest))
      ∧ (∀ e, get_existing_versions vlocker "vanilla" vi.id = some e →
          (e.server_url ≠ some vsu →
            vanillaLoop vnet (get_existing_versions vlocker "vanilla")
                (vi :: vrest)
              = Except.map
                  (fun t =>
                    ("vanilla", vi.id, false, vanillaEntry vi.id vsu) :: t)
                  (vanillaLoop vnet
                    (get_existing_versions vlocker "vanilla") vrest))
          ∧ (e.server_url = some vsu →
              vanillaLoop vnet (get_existing_versions vlocker "vanilla")
                  (vi :: vrest)
                = vanillaLoop vnet
                    (get_existing_versions vlocker "vanilla") vrest)))
    -- paper emission
    ∧ ((get_existing_versions plocker "paper" pver = none →
          paperLoop pnet (get_existing_versions plocker "paper")
              (pver :: prest)
            = Option.map
                (fun t =>
                  ("paper", pver, true,
                    paperEntry pver
                      (paperServerUrl pver pb.build (some pfn)) pcfg) :: t)
                (paperLoop pnet (get_existing_versions plocker "paper")
                  prest))
        ∧ (∀ e, get_existing_versions plocker "paper" pver = some e →
            (e.server_url ≠ some (paperServerUrl pver pb.build (some pfn)) →
              paperLoop pnet (get_existing_versions plocker "paper")
                  (pver :: prest)
                = Option.map
                    (fun t =>
                      ("paper", pver, false,
                        paperEntry pver
                          (paperServerUrl pver pb.build (some pfn))
                          pcfg) :: t)
                    (paperLoop pnet (get_existing_versions plocker "paper")
                      prest))
            ∧ (e.server_url = some (paperServerUrl pver pb.build (some pfn)) →
                paperLoop pnet (get_existing_versions plocker "paper")
                    (pver :: prest)
                  = paperLoop pnet (get_existing_versions plocker "paper")
                      prest)))
    -- forge emission
    ∧ ((get_existing_versions flocker "forge"
            (pyReplaceEmpty fkey "-latest") = none →
          forgeLoop (get_existing_versions flocker "forge")
              ((fkey, ffv) :: frest)
            = Option.map
                (fun t =>
                  ("forge", pyReplaceEmpty fkey "-latest", true,
                    forgeEntry (pyReplaceEmpty fkey "-latest")
                      ((forgeUrlParts (pyReplaceEmpty fkey "-latest") ffv
                          fparts).1
                        ++ (forgeUrlParts (pyReplaceEmpty fkey "-latest")
                            ffv fparts).2)
                      ((forgeUrlParts (pyReplaceEmpty fkey "-latest") ffv
                          fparts).2
                        :: (if fmodern then
                              ["user_jvm_args.txt", "run.bat", "run.sh"]
                            else []))) :: t)
                (forgeLoop (get_existing_versions flocker "forge") frest))
        ∧ (∀ e, get_existing_versions flocker "forge"
              (pyReplaceEmpty fkey "-latest") = some e →
            (e.installer_url
                ≠ some ((forgeUrlParts (pyReplaceEmpty fkey "-latest") ffv
                          fparts).1
                        ++ (forgeUrlParts (pyReplaceEmpty fkey "-latest")
                            ffv fparts).2) →
              forgeLoop (get_existing_versions flocker "forge")
                  ((fkey, ffv) :: frest)
                = Option.map
                    (fun t =>
                      ("forge", pyReplaceEmpty fkey "-latest", false,
                        forgeEntry (pyReplaceEmpty fkey "-latest")
                          ((forgeUrlParts (pyReplaceEmpty fkey "-latest")
                              ffv fparts).1
                            ++ (forgeUrlParts
                                (pyReplaceEmpty fkey "-latest") ffv
                                fparts).2)
                          ((forgeUrlParts (pyReplaceEmpty fkey "-latest")
                              ffv fparts).2
                            :: (if fmodern then
                                  ["user_jvm_args.txt", "run.bat", "run.sh"]
                                else []))) :: t)
                    (forgeLoop (get_existing_versions flocker "forge")
                      frest))
            ∧ (e.installer_url
                  = some ((forgeUrlParts (pyReplaceEmpty fkey "-latest") ffv
                            fparts).1
                          ++ (forgeUrlParts (pyReplaceEmpty fkey "-latest")
                              ffv fparts).2) →
                forgeLoop (get_existing_versions flocker "forge")
                    ((fkey, ffv) :: frest)
                  = forgeLoop (get_existing_versions flocker "forge")
                      frest)))
    -- neoforge emission
    ∧ ((get_existing_versions nlocker "neoforge" nmc = none →
          neoEmitLoop (get_existing_versions nlocker "neoforge")
              ((nmc, nneo) :: nrest)
            = ("neoforge", nmc, true, neoforgeEntry nmc nneo)
                :: neoEmitLoop (get_existing_versions nlocker "neoforge")
                    nrest)
        ∧ (∀ e, get_existing_versions nlocker "neoforge" nmc = some e →
            (e.installer_url ≠ some (neoforgeUrl nneo) →
              neoEmitLoop (get_existing_versions nlocker "neoforge")
                  ((nmc, nneo) :: nrest)
                = ("neoforge", nmc, false, neoforgeEntry nmc nneo)
                    :: neoEmitLoop
                        (get_existing_versions nlocker "neoforge") nrest)
            ∧ (e.installer_url = some (neoforgeUrl nneo) →
                neoEmitLoop (get_existing_versions nlocker "neoforge")
                    ((nmc, nneo) :: nrest)
                  = neoEmitLoop (get_existing_versions nlocker "neoforge")
                      nrest))) := by
  have hpdash' : ¬ '-' ∈ pver.data := by simpa using hpdash
  refine ⟨⟨?_, fun e he => ⟨?_, ?_⟩⟩, ⟨?_, fun e he => ⟨?_, ?_⟩⟩,
    ⟨?_, fun e he => ⟨?_, ?_⟩⟩, ⟨?_, fun e he => ⟨?_, ?_⟩⟩⟩
  · intro h
    simp [vanillaLoop, hvrel, hvfetch, h]
  · intro hne
    simp [vanillaLoop, hvrel, hvfetch, he, hne]
  · intro heq
    simp [vanillaLoop, hvrel, hvfetch, he, heq, except_map_nil,
      except_map_same]
  · intro h
    simp [paperLoop, hpdash, hpdash', hpfetch, hpne, hpstable, hpapp, hpcfgs, h]
  · intro hne
    simp [paperLoop, hpdash, hpdash', hpfetch, hpne, hpstable, hpapp, hpcfgs, he, hne]
  · intro heq
    simp [paperLoop, hpdash, hpdash', hpfetch, hpne, hpstable, hpapp, hpcfgs, he,
      heq, option_map_nil, option_map_same]
  · intro h
    simp [forgeLoop, hfend, hfparse, hfge, hfmod, h]
  · intro hne
    simp [forgeLoop, hfend, hfparse, hfge, hfmod, he, hne]
  · intro heq
    simp [forgeLoop, hfend, hfparse, hfge, hfmod, he, heq, option_map_nil,
      option_map_same]
  · intro h
    simp [neoEmitLoop, h]
  · intro hne
    simp [neoEmitLoop, he, hne]
  · intro heq
    simp [neoEmitLoop, he, heq]

/-- C1 witness: the emission rules evaluated on concrete fetcher inputs —
a fresh vanilla release (new change), a paper version with a changed build
URL (update change), a forge promotion already recorded with the same URL
(no change), and a fresh neoforge version (new change). -/
theorem fetcher_diff_emission_witness :
    vanillaLoop c1VanillaNet (get_existing_versions ⟨[]⟩ "vanilla") [c1Vi]
      = .ok [("vanilla", "1.21", true,
              vanillaEntry "1.21" "https://pistonmeta/server.jar")]
    ∧ paperLoop c1PaperNet (get_existing_versions c1PaperLocker "paper")
        ["1.20"]
      = some [("paper", "1.20", false,
              paperEntry "1.20"
                (paperServerUrl "1.20" (some 5) (some "paper-1.20-5.jar"))
                ["bukkit", "spigot", "paper-global", "paper-world-defaults"])]
    ∧ forgeLoop (get_existing_versions c1ForgeLocker "forge")
        [("1.20.1-latest", "47.4.13")] = some []
    ∧ neoEmitLoop (get_existing_versions (⟨[]⟩ : Locker) "neoforge")
        [("1.21.1", "21.1.42")]
      = [("neoforge", "1.21.1", true, neoforgeEntry "1.21.1" "21.1.42")] := by
  obtain ⟨hv, hp, hf, hn⟩ :=
    fetcher_diff_emission c1VanillaNet ⟨[]⟩ c1Vi []
      "https://pistonmeta/server.jar" (by decide) rfl
      c1PaperNet c1PaperLocker "1.20" [] ⟨[c1PaperBuild]⟩ c1PaperBuild
      "paper-1.20-5.jar"
      ["bukkit", "spigot", "paper-global", "paper-world-defaults"]
      (by decide) (by decide) (by decide) (by decide) (by decide) (by decide)
      c1ForgeLocker "1.20.1-latest" "47.4.13" [] [1, 20, 1] true
      (by decide) (by decide) (by decide) (by decide)
      ⟨[]⟩ "1.21.1" "21.1.42" []
  refine ⟨?_, ?_, ?_, ?_⟩
  · rw [hv.1 (by decide)]; rfl
  · rw [(hp.2 c1PaperOld (by decide)).1 (by decide)]; decide
  · rw [(hf.2 c1ForgeOld (by decide)).2 (by decide)]; decide
  · rw [hn.1 (by decide)]; decide

/-- C2 counterexample: the per-version detail request of `check_vanilla`
is not guarded by any `try/except`, so one failing item aborts the whole
fetcher: with the request for "1.21" failing, `check_vanilla` propagates
the exception (returns `error`) instead of skipping the item, and the
second manifest item "1.20" is never processed — refuting the claim that
a per-item failure never aborts a fetcher's run. -/
theorem vanilla_item_failure_aborts_cex :
    check_vanilla c2FailNet
      (.ok [⟨"1.21", "release", "https://u1"⟩,
            ⟨"1.20", "release", "https://u2"⟩]) ⟨[]⟩ = .error () := rfl

/-- C2 (amended): the paper fetcher catches a per-item (per-version
builds) request failure and skips exactly that item, continuing with the
rest; the vanilla fetcher's per-version detail request is unguarded, so a
failure there aborts the whole fetcher run (the forge and neoforge
fetchers issue no per-item requests). -/
theorem per_item_failure_handling
    (pnet : PaperNet) (existing : String → Option Entry) (version : String)
    (rest : List String)
    (hdash : version.data.contains '-' = false)
    (hfail : pnet.fetchBuilds (paperBuildsUrl version) = none)
    (vnet : VanillaNet) (vexisting : String → Option Entry)
    (vi : VanillaVersionInfo) (vrest : List VanillaVersionInfo)
    (hvrel : vi.type = "release")
    (hvfail : vnet.fetchDetail vi.url = .error ()) :
    paperLoop pnet existing (version :: rest) = paperLoop pnet existing rest
    ∧ vanillaLoop vnet vexisting (vi :: vrest) = .error () := by
  have hdash' : ¬ '-' ∈ version.data := by simpa using hdash
  constructor
  · simp [paperLoop, hdash, hdash', hfail]
  · simp [vanillaLoop, hvrel, hvfail]

/-- C2 witness: a concrete failing paper item is skipped while the run
continues (yielding `[]` here), and a concrete failing vanilla item aborts
the fetcher. -/
theorem per_item_failure_handling_witness :
    paperLoop c2PaperFailNet (get_existing_versions ⟨[]⟩ "paper") ["1.20"]
        = some []
    ∧ vanillaLoop c2FailNet (get_existing_versions ⟨[]⟩ "vanilla")
        [⟨"1.21", "release", "https://u1"⟩] = .error () := by
  obtain ⟨h1, h2⟩ :=
    per_item_failure_handling c2PaperFailNet
      (get_existing_versions ⟨[]⟩ "paper") "1.20" [] (by decide) rfl
      c2FailNet (get_existing_versions ⟨[]⟩ "vanilla")
      ⟨"1.21", "release", "https://u1"⟩ [] rfl rfl
  exact ⟨by rw [h1]; rfl, h2⟩

/-- C3 counterexample: the results of the first two publish commands
(`git checkout main`, `git pull origin main`) are not consulted, so a
non-zero exit there does NOT abort the remaining steps: with
`git checkout main` failing — and likewise with `git pull origin main`
failing — all seven commands of the publish sequence are still attempted
and the PR-creation step still runs, refuting the claim that every
step's failure aborts the rest of that change's publish. -/
theorem step_failure_aborts_cex :
    c3Env.runCmd gitCheckoutMain = false
    ∧ (create_pr c3Env ⟨[]⟩ "vanilla" "1.21" true c3Entry).trace.length = 7
    ∧ (create_pr c3Env ⟨[]⟩ "vanilla" "1.21" true c3Entry).createdPR = true
    ∧ c3EnvPull.runCmd gitPullMain = false
    ∧ (create_pr c3EnvPull ⟨[]⟩ "vanilla" "1.21" true c3Entry).trace.length
        = 7
    ∧ (create_pr c3EnvPull ⟨[]⟩ "vanilla" "1.21" true c3Entry).createdPR
        = true := by
  refine ⟨rfl, rfl, rfl, rfl, rfl, rfl⟩

/-- Length of the `run` loop's outcome list: every pending change is
processed, whatever the outcomes of the others. -/
theorem processChanges_length (env : RunEnv) (file : Locker)
    (cs : List Change) : ((processChanges env file cs).2).length = cs.length := by
  induction cs generalizing file with
  | nil => rfl
  | cons c rest ih =>
      obtain ⟨t, v, n, e⟩ := c
      simp [processChanges, ih]

/-- C3 (amended): failures of the initial `git checkout main` /
`git pull origin main` are ignored (logged only) — forcing both to fail
changes nothing about the publish; a non-zero exit of any guarded step —
branch creation, staging, commit, push — aborts the remaining steps of
that single change's publish (the locker file is still untouched when
branch creation fails), and no failure prevents the other pending
changes from being processed. -/
theorem step_failure_aborts_amended
    (env : PubEnv) (file : Locker) (t v : String) (n : Bool) (e : Entry)
    (hopen : env.hasOpenPR (prTitle t v n) = false) :
    -- checkout-main / pull results are ignored: forcing them to fail
    -- leaves the whole publish result unchanged
    (create_pr
        { env with runCmd := fun c =>
            if c = gitCheckoutMain ∨ c = gitPullMain then false
            else env.runCmd c }
        file t v n e
      = create_pr env file t v n e)
    -- branch creation fails: nothing further runs, file untouched
    ∧ (env.runCmd ["git", "checkout", "-b",
        branchName (if n then "new" else "update") t v env.now] = false →
      create_pr env file t v n e
        = ⟨file,
           [gitCheckoutMain, gitPullMain,
            ["git", "checkout", "-b",
             branchName (if n then "new" else "update") t v env.now]],
           false⟩)
    -- staging fails (branch creation succeeded): no commit/push/PR steps
    ∧ (env.runCmd ["git", "checkout", "-b",
          branchName (if n then "new" else "update") t v env.now] = true →
        env.runCmd ["git", "add", "locker.json"] = false →
        create_pr env file t v n e
          = ⟨updateLocker file t v n e,
             [gitCheckoutMain, gitPullMain,
              ["git", "checkout", "-b",
               branchName (if n then "new" else "update") t v env.now],
              ["git", "add", "locker.json"]],
             false⟩)
    -- commit fails (branch and staging succeeded): no push/PR steps
    ∧ (env.runCmd ["git", "checkout", "-b",
          branchName (if n then "new" else "update") t v env.now] = true →
        env.runCmd ["git", "add", "locker.json"] = true →
        env.runCmd ["git", "commit", "-m",
          if n then "locker: Add " ++ pyCapitalize t ++ " " ++ v
          else "locker: Update " ++ pyCapitalize t ++ " " ++ v] = false →
        create_pr env file t v n e
          = ⟨updateLocker file t v n e,
             [gitCheckoutMain, gitPullMain,
              ["git", "checkout", "-b",
               branchName (if n then "new" else "update") t v env.now],
              ["git", "add", "locker.json"],
              ["git", "commit", "-m",
               if n then "locker: Add " ++ pyCapitalize t ++ " " ++ v
               else "locker: Update " ++ pyCapitalize t ++ " " ++ v]],
             false⟩)
    -- push fails (branch, staging, commit succeeded): no PR step
    ∧ (env.runCmd ["git", "checkout", "-b",
          branchName (if n then "new" else "update") t v env.now] = true →
        env.runCmd ["git", "add", "locker.json"] = true →
        env.runCmd ["git", "commit", "-m",
          if n then "locker: Add " ++ pyCapitalize t ++ " " ++ v
          else "locker: Update " ++ pyCapitalize t ++ " " ++ v] = true →
        env.runCmd ["git", "push", "-u", "origin",
          branchName (if n then "new" else "update") t v env.now] = false →
        create_pr env file t v n e
          = ⟨updateLocker file t v n e,
             [gitCheckoutMain, gitPullMain,
              ["git", "checkout", "-b",
               branchName (if n then "new" else "update") t v env.now],
              ["git", "add", "locker.json"],
              ["git", "commit", "-m",
               if n then "locker: Add " ++ pyCapitalize t ++ " " ++ v
               else "locker: Update " ++ pyCapitalize t ++ " " ++ v],
              ["git", "push", "-u", "origin",
               branchName (if n then "new" else "update") t v env.now]],
             false⟩)
    -- every pending change is processed regardless of other outcomes
    ∧ (∀ (renv : RunEnv) (f : Locker) (cs : List Change),
        ((processChanges renv f cs).2).length = cs.length) := by
  refine ⟨?_, ?_, ?_, ?_, ?_,
    fun renv f cs => processChanges_length renv f cs⟩
  · simp [create_pr, gitCheckoutMain, gitPullMain]
  · intro hbr
    simp [create_pr, hopen, hbr]
  · intro hbr hadd
    simp [create_pr, hopen, hbr, hadd]
  · intro hbr hadd hcommit
    simp [create_pr, hopen, hbr, hadd, hcommit]
  · intro hbr hadd hcommit hpush
    simp [create_pr, hopen, hbr, hadd, hcommit, hpush]

/-- C3 witness: with branch creation failing on a concrete change, the
publish stops after three commands and leaves the locker file unchanged;
with the commit failing, it stops after five commands, and with the push
failing after six — in each case with no PR created. -/
theorem step_failure_aborts_amended_witness :
    create_pr c3wEnv ⟨[]⟩ "vanilla" "1.21" true c3Entry
      = ⟨⟨[]⟩,
         [gitCheckoutMain, gitPullMain,
          ["git", "checkout", "-b", "auto-new-vanilla-1.21-20250101-000000"]],
         false⟩
    ∧ (create_pr c3wEnvCommit ⟨[]⟩ "vanilla" "1.21" true c3Entry).trace.length
        = 5
    ∧ (create_pr c3wEnvCommit ⟨[]⟩ "vanilla" "1.21" true c3Entry).createdPR
        = false
    ∧ (create_pr c3wEnvPush ⟨[]⟩ "vanilla" "1.21" true c3Entry).trace.length
        = 6
    ∧ (create_pr c3wEnvPush ⟨[]⟩ "vanilla" "1.21" true c3Entry).createdPR
        = false := by
  have h :=
    step_failure_aborts_amended c3wEnv ⟨[]⟩ "vanilla" "1.21" true c3Entry rfl
  have hc :=
    step_failure_aborts_amended c3wEnvCommit ⟨[]⟩ "vanilla" "1.21" true
      c3Entry rfl
  have hp :=
    step_failure_aborts_amended c3wEnvPush ⟨[]⟩ "vanilla" "1.21" true
      c3Entry rfl
  refine ⟨?_, ?_, ?_, ?_, ?_⟩
  · rw [h.2.1 (by decide)]
    rfl
  · rw [hc.2.2.2.1 (by decide) (by decide) (by decide)]
    rfl
  · rw [hc.2.2.2.1 (by decide) (by decide) (by decide)]
  · rw [hp.2.2.2.2.1 (by decide) (by decide) (by decide) (by decide)]
    rfl
  · rw [hp.2.2.2.2.1 (by decide) (by decide) (by decide) (by decide)]

/-- C4: the URL validator issues a HEAD probe: status 404 is invalid, any
status other than 404/403/405 is valid, and 403/405 or a transport
failure falls through to the streamed GET probe, where 404 is invalid,
any other status valid, and a transport failure invalid; in particular
404 on both probes is invalid and 403-then-200 is valid. -/
theorem url_validator_behavior (head get : ProbeResult) (u : String)
    (hu : u ≠ "") :
    (head = .status 404 → is_url_valid head get (some u) = false)
    ∧ (∀ c, head = .status c → c ≠ 404 → c ≠ 403 → c ≠ 405 →
        is_url_valid head get (some u) = true)
    ∧ ((head = .status 403 ∨ head = .status 405 ∨ head = .transportFail) →
        ((get = .status 404 → is_url_valid head get (some u) = false)
          ∧ (∀ c, get = .status c → c ≠ 404 →
              is_url_valid head get (some u) = true)
          ∧ (get = .transportFail → is_url_valid head get (some u) = false)))
    ∧ (head = .status 404 → get = .status 404 →
        is_url_valid head get (some u) = false)
    ∧ (head = .status 403 → get = .status 200 →
        is_url_valid head get (some u) = true) := by
  refine ⟨?_, ?_, ?_, ?_, ?_⟩
  · rintro rfl
    simp [is_url_valid, is_url_validT, hu]
  · rintro c rfl h404 h403 h405
    simp [is_url_valid, is_url_validT, hu, h404, h403, h405]
  · intro hh
    refine ⟨?_, ?_, ?_⟩
    · rintro rfl
      rcases hh with rfl | rfl | rfl <;>
        simp [is_url_valid, is_url_validT, getProbeValid, hu]
    · rintro c rfl hc
      rcases hh with rfl | rfl | rfl <;>
        simp [is_url_valid, is_url_validT, getProbeValid, hu, hc]
    · rintro rfl
      rcases hh with rfl | rfl | rfl <;>
        simp [is_url_valid, is_url_validT, getProbeValid, hu]
  · rintro rfl rfl
    simp [is_url_valid, is_url_validT, hu]
  · rintro rfl rfl
    simp [is_url_valid, is_url_validT, getProbeValid, hu]

/-- C4 witness: a concrete URL answering 403 to HEAD and 200 to GET is
valid. -/
theorem url_validator_behavior_witness :
    is_url_valid (.status 403) (.status 200) (some "https://host/x.jar")
      = true :=
  (url_validator_behavior (.status 403) (.status 200) "https://host/x.jar"
    (by decide)).2.2.2.2 rfl rfl

/-- C9: the PR title is `Add`/`Update` + capitalized server type +
version, and when an open PR with exactly that title exists the change is
skipped entirely: only the initial checkout/pull commands were attempted,
no branch is created, the locker file is unchanged, and no commit, push
or PR creation happens. -/
theorem pr_title_and_skip (env : PubEnv) (file : Locker) (t v : String)
    (n : Bool) (e : Entry)
    (hopen : env.hasOpenPR (prTitle t v n) = true) :
    prTitle t v n
      = (if n then "Add " else "Update ") ++ pyCapitalize t ++ " " ++ v
    ∧ create_pr env file t v n e
        = ⟨file, [gitCheckoutMain, gitPullMain], false⟩ := by
  constructor
  · cases n <;> rfl
  · simp [create_pr, hopen]

/-- C9 witness: a concrete change whose PR title is already open is
skipped with the locker untouched. -/
theorem pr_title_and_skip_witness :
    create_pr c9Env ⟨[]⟩ "vanilla" "1.21" true c3Entry
      = ⟨⟨[]⟩, [gitCheckoutMain, gitPullMain], false⟩ :=
  (pr_title_and_skip c9Env ⟨[]⟩ "vanilla" "1.21" true c3Entry (by decide)).2

/-- C10: the validator rejects a missing (`None`) or empty URL
immediately, issuing no HEAD or GET probe. -/
theorem empty_url_invalid_no_probe (head get : ProbeResult) :
    is_url_validT head get none = (false, [])
    ∧ is_url_validT head get (some "") = (false, []) := by
  exact ⟨rfl, rfl⟩

/-- C5: for a promotion key ending in `-latest` whose Minecraft version is
at least 1.5.2, the legacy Maven naming branch is taken exactly when the
version lies in 1.7.10–1.10.0 (Python list order) excluding 1.8 and
1.8.8, or is the special case 1.7.2; 1.7.2 uses the `mc172` suffix, any
non-legacy version the modern naming, and in particular 1.20.1 is
modern. -/
theorem forge_legacy_routing (key mc fv : String) (parts : List Int)
    (hkey : pyEndsWith key "-latest" = true)
    (hmc : mc = pyReplaceEmpty key "-latest")
    (hparse : parseIntList mc = some parts)
    (hge : pyListLt parts [1, 5, 2] = false) :
    (forgeIsLegacyUrl parts = true ↔
      ((pyListLe [1, 7, 10] parts = true ∧ pyListLe parts [1, 10, 0] = true
          ∧ parts ≠ [1, 8] ∧ parts ≠ [1, 8, 8])
        ∨ parts = [1, 7, 2]))
    ∧ (forgeIsLegacyUrl parts = false →
        forgeUrlParts mc fv parts
          = ("https://maven.minecraftforge.net/net/minecraftforge/forge/"
                ++ mc ++ "-" ++ fv ++ "/",
             "forge-" ++ mc ++ "-" ++ fv ++ "-installer.jar"))
    ∧ (parts = [1, 7, 2] →
        forgeUrlParts mc fv parts
          = ("https://maven.minecraftforge.net/net/minecraftforge/forge/"
                ++ mc ++ "-" ++ fv ++ "-mc172/",
             "forge-" ++ mc ++ "-" ++ fv ++ "-mc172-installer.jar"))
    ∧ (forgeUrlParts "1.20.1" fv [1, 20, 1]
        = ("https://maven.minecraftforge.net/net/minecraftforge/forge/1.20.1-"
              ++ fv ++ "/",
           "forge-1.20.1-" ++ fv ++ "-installer.jar")) := by
  refine ⟨?_, ?_, ?_, ?_⟩
  · simp only [forgeIsLegacyUrl, Bool.or_eq_true, Bool.and_eq_true,
      Bool.not_eq_true', beq_eq_false_iff_ne, beq_iff_eq, ne_eq,
      Bool.or_eq_false_iff]
    constructor
    · rintro (⟨⟨h1, h2⟩, h3, h4⟩ | h5)
      · exact Or.inl ⟨h1, h2, h3, h4⟩
      · exact Or.inr h5
    · rintro (⟨h1, h2, h3, h4⟩ | h5)
      · exact Or.inl ⟨⟨h1, h2⟩, h3, h4⟩
      · exact Or.inr h5
  · intro hleg
    simp only [forgeUrlParts, hleg, Bool.false_eq_true, if_false]
  · rintro rfl
    have hleg : forgeIsLegacyUrl [1, 7, 2] = true := by decide
    simp only [forgeUrlParts, hleg, if_true]
    simp only [string_append_assoc]
    rfl
  · have hleg : forgeIsLegacyUrl [1, 20, 1] = false := by decide
    simp only [forgeUrlParts, hleg, Bool.false_eq_true, if_false]
    simp only [string_append_assoc]
    rfl

/-- C5 witness: the concrete promotions `1.7.2-latest` and
`1.20.1-latest` route to the `mc172` legacy branch and the modern branch
respectively. -/
theorem forge_legacy_routing_witness :
    forgeUrlParts "1.7.2" "10.12.2.1161" [1, 7, 2]
      = ("https://maven.minecraftforge.net/net/minecraftforge/forge/1.7.2-10.12.2.1161-mc172/",
         "forge-1.7.2-10.12.2.1161-mc172-installer.jar")
    ∧ forgeUrlParts "1.20.1" "47.4.13" [1, 20, 1]
      = ("https://maven.minecraftforge.net/net/minecraftforge/forge/1.20.1-47.4.13/",
         "forge-1.20.1-47.4.13-installer.jar") := by
  have h :=
    forge_legacy_routing "1.7.2-latest" "1.7.2" "10.12.2.1161" [1, 7, 2]
      (by decide) (by decide) (by decide) (by decide)
  constructor
  · rw [h.2.2.1 rfl]
    rfl
  · have h2 :=
      forge_legacy_routing "1.20.1-latest" "1.20.1" "47.4.13" [1, 20, 1]
        (by decide) (by decide) (by decide) (by decide)
    rw [h2.2.2.2]
    rfl

/-- C6 counterexample: the claim ties the four-file config set to
"version at least 1.19", but the code tests `parts[0] == 1 and
parts[1] >= 19`: the version "2.0" parses as dotted integers, is above
1.19 in the dotted-version order, and still gets the legacy three-file
set — refuting the claimed threshold rule as stated. -/
theorem paper_config_threshold_cex :
    parseIntList "2.0" = some [2, 0]
    ∧ pyListLe [1, 19] [2, 0] = true
    ∧ paperConfigs "2.0" = some ["bukkit", "spigot", "paper"]
    ∧ paperConfigs "2.0"
        ≠ some ["bukkit", "spigot", "paper-global", "paper-world-defaults"] := by
  refine ⟨by decide, by decide, by decide, by decide⟩

/-- C6 (amended): for every Paper version string parsing as dotted
integers with at least two components, the config set is
`[bukkit, spigot, paper-global, paper-world-defaults]` exactly when the
first component equals 1 and the second is at least 19, and
`[bukkit, spigot, paper]` otherwise (so "1.19" gets the four-file set and
"1.18.2" the three-file set, while e.g. major-2 versions get the
three-file set). -/
theorem paper_config_threshold (version : String) (p0 p1 : Int)
    (ps : List Int)
    (hparse : parseIntList version = some (p0 :: p1 :: ps)) :
    paperConfigs version
      = some (if p0 = 1 ∧ p1 ≥ 19 then
                ["bukkit", "spigot", "paper-global", "paper-world-defaults"]
              else ["bukkit", "spigot", "paper"])
    ∧ paperConfigs "1.19"
        = some ["bukkit", "spigot", "paper-global", "paper-world-defaults"]
    ∧ paperConfigs "1.18.2" = some ["bukkit", "spigot", "paper"] := by
  refine ⟨?_, by decide, by decide⟩
  by_cases h0 : p0 = 1
  · by_cases h1 : p1 ≥ 19 <;> simp [paperConfigs, hparse, h0, h1]
  · simp [paperConfigs, hparse, h0]

/-- C6 witness: the concrete version "1.21.3" parses with first component
1 and second at least 19 and receives the four-file config set. -/
theorem paper_config_threshold_witness :
    paperConfigs "1.21.3"
      = some ["bukkit", "spigot", "paper-global", "paper-world-defaults"] := by
  rw [(paper_config_threshold "1.21.3" 1 21 [3] (by decide)).1]
  decide

theorem dictLookup_dictSet {α : Type} (kvs : List (String × α))
    (sk lk : String) (v : α) :
    dictLookup (dictSet kvs sk v) lk
      = if lk = sk then some v else dictLookup kvs lk := by
  induction kvs with
  | nil =>
      by_cases h : sk = lk
      · subst h
        simp [dictSet, dictLookup]
      · simp [dictSet, dictLookup, h, Ne.symm h]
  | cons kv rest ih =>
      obtain ⟨k1, v1⟩ := kv
      by_cases h1 : k1 = sk
      · subst h1
        by_cases h2 : k1 = lk
        · subst h2
          simp [dictSet, dictLookup]
        · simp [dictSet, dictLookup, h2, Ne.symm h2]
      · by_cases h2 : k1 = lk
        · subst h2
          have h1' : ¬ k1 = sk := h1
          simp [dictSet, dictLookup, h1, Ne.symm h1]
        · simp [dictSet, dictLookup, h1, h2, ih]

theorem replaceFirst_versions (es : List Entry) (version : String)
    (entry : Entry) (h : entry.version = version) :
    (replaceFirst es version entry).map Entry.version
      = es.map Entry.version := by
  induction es with
  | nil => rfl
  | cons e rest ih =>
      by_cases he : e.version = version
      · simp [replaceFirst, he, h]
      · simp [replaceFirst, he, ih]

/-- C8: starting from a locker whose per-type entry lists have pairwise
distinct version strings, the publish mutation (append of an absent
version when `is_new`, in-place replacement of the matching version
otherwise) keeps every list's versions pairwise distinct; no recorded
version is ever removed (each list's version sequence is preserved, at
most extended), and `create_pr` either leaves the locker file untouched
or applies exactly this mutation. -/
theorem locker_uniqueness_preserved (locker : Locker) (t version : String)
    (is_new : Bool) (entry : Entry)
    (hver : entry.version = version)
    (hdist : ∀ ty es, dictLookup locker.servers ty = some es →
      (es.map Entry.version).Nodup)
    (habsent : is_new = true → ∀ es, dictLookup locker.servers t = some es →
      version ∉ es.map Entry.version) :
    (∀ ty es', dictLookup (updateLocker locker t version is_new entry).servers
        ty = some es' → (es'.map Entry.version).Nodup)
    ∧ (∀ ty es, dictLookup locker.servers ty = some es →
        ∃ es' extra,
          dictLookup (updateLocker locker t version is_new entry).servers ty
            = some es'
          ∧ es'.map Entry.version = es.map Entry.version ++ extra)
    ∧ (∀ env, (create_pr env locker t version is_new entry).file = locker
        ∨ (create_pr env locker t version is_new entry).file
            = updateLocker locker t version is_new entry) := by
  have hlook : ∀ ty,
      dictLookup (updateLocker locker t version is_new entry).servers ty
        = if ty = t then
            some (if is_new then
                    ((dictLookup (lockerEnsureType locker t).servers t).getD
                      []) ++ [entry]
                  else replaceFirst
                    ((dictLookup (lockerEnsureType locker t).servers t).getD
                      []) version entry)
          else dictLookup (lockerEnsureType locker t).servers ty := by
    intro ty
    simp [updateLocker, dictLookup_dictSet]
  have hbase : ∀ ty, ty ≠ t →
      dictLookup (lockerEnsureType locker t).servers ty
        = dictLookup locker.servers ty := by
    intro ty hty
    unfold lockerEnsureType
    cases hV : dictLookup locker.servers t with
    | some es => rfl
    | none => simp [dictLookup_dictSet, hty]
  have hbaset :
      dictLookup (lockerEnsureType locker t).servers t
        = some ((dictLookup locker.servers t).getD []) := by
    unfold lockerEnsureType
    cases hV : dictLookup locker.servers t with
    | some es => simp [hV]
    | none => simp [dictLookup_dictSet, hV]
  have hentries :
      ((dictLookup (lockerEnsureType locker t).servers t).getD [])
        = (dictLookup locker.servers t).getD [] := by
    rw [hbaset]
    rfl
  have hnodup0 : (((dictLookup locker.servers t).getD []).map
      Entry.version).Nodup := by
    cases hV : dictLookup locker.servers t with
    | some es => simpa using hdist t es hV
    | none => simp
  have habsent0 : is_new = true →
      version ∉ ((dictLookup locker.servers t).getD []).map Entry.version := by
    intro hn
    cases hV : dictLookup locker.servers t with
    | some es => simpa using habsent hn es hV
    | none => simp
  refine ⟨?_, ?_, ?_⟩
  · intro ty es' h'
    rw [hlook ty] at h'
    by_cases hty : ty = t
    · rw [if_pos hty] at h'
      cases is_new with
      | true =>
          simp only [if_true] at h'
          obtain rfl : ((dictLookup (lockerEnsureType locker t).servers
              t).getD []) ++ [entry] = es' := by
            injection h'
          rw [hentries]
          simp [List.nodup_append, hnodup0, hver,
            habsent0 rfl]
      | false =>
          simp only [Bool.false_eq_true, if_false] at h'
          obtain rfl : replaceFirst ((dictLookup (lockerEnsureType locker
              t).servers t).getD []) version entry = es' := by
            injection h'
          rw [replaceFirst_versions _ _ _ hver, hentries]
          exact hnodup0
    · rw [if_neg hty, hbase ty hty] at h'
      exact hdist ty es' h'
  · intro ty es hes
    by_cases hty : ty = t
    · subst hty
      cases is_new with
      | true =>
          refine ⟨((dictLookup (lockerEnsureType locker ty).servers
              ty).getD []) ++ [entry], [entry.version], ?_, ?_⟩
          · rw [hlook ty, if_pos rfl]
            rfl
          · rw [hentries, hes]
            simp
      | false =>
          refine ⟨replaceFirst ((dictLookup (lockerEnsureType locker
              ty).servers ty).getD []) version entry, [], ?_, ?_⟩
          · rw [hlook ty, if_pos rfl]
            rfl
          · rw [replaceFirst_versions _ _ _ hver, hentries, hes]
            simp
    · refine ⟨es, [], ?_, by simp⟩
      rw [hlook ty, if_neg hty, hbase ty hty, hes]
  · intro env
    simp only [create_pr]
    split_ifs <;> simp

/-- C8 witness: appending the absent version "1.21" to a distinct list
keeps the versions pairwise distinct. -/
theorem locker_uniqueness_preserved_witness :
    (([c8Old, c3Entry].map Entry.version)).Nodup := by
  have h :=
    (locker_uniqueness_preserved c8Locker "vanilla" "1.21" true c3Entry
      rfl
      (by
        intro ty es hes
        by_cases hty : ("vanilla" : String) = ty
        · subst hty
          simp [dictLookup] at hes
          subst hes
          decide
        · simp [dictLookup, hty] at hes)
      (by
        intro _ es hes
        simp [dictLookup] at hes
        subst hes
        decide)).1
  have hl : dictLookup (updateLocker c8Locker "vanilla" "1.21" true
      c3Entry).servers "vanilla" = some [c8Old, c3Entry] := by
    decide
  exact h "vanilla" [c8Old, c3Entry] hl

theorem string_mk_data (s : String) : String.mk s.data = s := by
  cases s
  rfl

theorem skipWs_ws_append (l cs : List Char)
    (h : ∀ c ∈ l, isJsonWs c = true) : skipWs (l ++ cs) = skipWs cs := by
  induction l with
  | nil => rfl
  | cons c rest ih =>
      simp only [List.cons_append, skipWs, h c (List.mem_cons_self c rest),
        if_true]
      exact ih (fun c hc => h c (List.mem_cons_of_mem _ hc))

theorem skipWs_not_ws (c : Char) (cs : List Char) (h : isJsonWs c = false) :
    skipWs (c :: cs) = c :: cs := by
  simp [skipWs, h]

theorem ind_ws (d : Nat) : ∀ c ∈ (ind d).data, isJsonWs c = true := by
  intro c hc
  have : c = ' ' := List.eq_of_mem_replicate hc
  subst this
  rfl

theorem skipWs_nl_ind (d : Nat) (cs : List Char) :
    skipWs ('\n' :: ((ind d).data ++ cs)) = skipWs cs := by
  have h1 : skipWs ('\n' :: ((ind d).data ++ cs))
      = skipWs ((ind d).data ++ cs) := by
    simp [skipWs, isJsonWs]
  rw [h1, skipWs_ws_append _ _ (ind_ws d)]

theorem escapeChar_plain (c : Char) (h : plainCharB c = true) :
    escapeChar c = String.mk [c] := by
  simp only [plainCharB, Bool.and_eq_true, decide_eq_true_eq] at h
  obtain ⟨⟨⟨h1, h2⟩, h3⟩, h4⟩ := h
  unfold escapeChar
  rw [if_neg h3, if_neg h4, if_neg ?h8, if_neg ?hc, if_neg ?hn, if_neg ?hr,
    if_neg ?ht, if_pos ⟨h1, h2⟩]
  case h8 => rintro rfl; exact absurd h1 (by decide)
  case hc => rintro rfl; exact absurd h1 (by decide)
  case hn => rintro rfl; exact absurd h1 (by decide)
  case hr => rintro rfl; exact absurd h1 (by decide)
  case ht => rintro rfl; exact absurd h1 (by decide)

theorem strConcat_singletons (l : List Char) :
    strConcat (l.map (fun c => String.mk [c])) = String.mk l := by
  induction l with
  | nil => rfl
  | cons c rest ih =>
      show String.mk [c] ++ strConcat (rest.map (fun c => String.mk [c]))
        = String.mk (c :: rest)
      rw [ih]
      rfl

theorem jstr_data (s : String) (h : plainStrB s = true) :
    (jstr s).data = '"' :: (s.data ++ ['"']) := by
  simp only [plainStrB, List.all_eq_true] at h
  have hmap : s.data.map escapeChar = s.data.map (fun c => String.mk [c]) :=
    List.map_congr_left (fun c hc => escapeChar_plain c (h c hc))
  unfold jstr
  rw [hmap, strConcat_singletons, string_mk_data]
  rw [String.data_append, String.data_append]
  rfl

theorem jstr_data_length (s : String) (h : plainStrB s = true) :
    (jstr s).data.length = s.data.length + 2 := by
  rw [jstr_data s h]
  simp

theorem interc_single (sep a : String) : interc sep [a] = a := rfl

theorem interc_cons₂ (sep a b : String) (t : List String) :
    interc sep (a :: b :: t) = a ++ sep ++ interc sep (b :: t) := rfl

theorem parseStrBody_spec (l rest : List Char) (fuel : Nat)
    (hplain : ∀ c ∈ l, plainCharB c = true)
    (hfuel : l.length + 1 ≤ fuel) :
    parseStrBody fuel (l ++ '"' :: rest) = some (String.mk l, rest) := by
  induction l generalizing fuel with
  | nil =>
      obtain ⟨f, rfl⟩ : ∃ f, fuel = f + 1 := ⟨fuel - 1, by omega⟩
      rfl
  | cons c l' ih =>
      obtain ⟨f, rfl⟩ : ∃ f, fuel = f + 1 := ⟨fuel - 1, by omega⟩
      have hc := hplain c (List.mem_cons_self c l')
      simp only [plainCharB, Bool.and_eq_true, decide_eq_true_eq] at hc
      obtain ⟨⟨⟨h1, h2⟩, h3⟩, h4⟩ := hc
      have step : parseStrBody (f + 1) ((c :: l') ++ '"' :: rest)
          = (parseStrBody f (l' ++ '"' :: rest)).map
              (fun sr => (String.mk (c :: sr.1.data), sr.2)) := by
        simp only [List.cons_append, parseStrBody, if_neg h3, if_neg h4]
        rfl
      have hlen : l'.length + 1 ≤ f := by
        have : l'.length + 1 + 1 ≤ f + 1 := by simpa using hfuel
        omega
      rw [step, ih f (fun c hc => hplain c (List.mem_cons_of_mem _ hc)) hlen]
      rfl

theorem parseJVal_ws (l cs : List Char) (fuel : Nat)
    (h : ∀ c ∈ l, isJsonWs c = true) :
    parseJVal fuel (l ++ cs) = parseJVal fuel cs := by
  unfold parseJVal
  rw [skipWs_ws_append l cs h]

theorem parseEntryObj_ws (l cs : List Char) (fuel : Nat)
    (h : ∀ c ∈ l, isJsonWs c = true) :
    parseEntryObj fuel (l ++ cs) = parseEntryObj fuel cs := by
  unfold parseEntryObj
  rw [skipWs_ws_append l cs h]

theorem parseEntryList_ws (l cs : List Char) (fuel : Nat)
    (h : ∀ c ∈ l, isJsonWs c = true) :
    parseEntryList fuel (l ++ cs) = parseEntryList fuel cs := by
  unfold parseEntryList
  rw [skipWs_ws_append l cs h]

theorem parseServersObj_ws (l cs : List Char) (fuel : Nat)
    (h : ∀ c ∈ l, isJsonWs c = true) :
    parseServersObj fuel (l ++ cs) = parseServersObj fuel cs := by
  unfold parseServersObj
  rw [skipWs_ws_append l cs h]

theorem sep_data (d : Nat) :
    (",\n" ++ ind (d + 1)).data = ',' :: '\n' :: (ind (d + 1)).data := by
  rw [String.data_append]
  rfl

theorem skipWs_quote (cs : List Char) :
    skipWs ('"' :: cs) = '"' :: cs := skipWs_not_ws _ _ rfl

theorem skipWs_comma (cs : List Char) :
    skipWs (',' :: cs) = ',' :: cs := skipWs_not_ws _ _ rfl

theorem skipWs_colon (cs : List Char) :
    skipWs (':' :: cs) = ':' :: cs := skipWs_not_ws _ _ rfl

theorem skipWs_rbracket (cs : List Char) :
    skipWs (']' :: cs) = ']' :: cs := skipWs_not_ws _ _ rfl

theorem skipWs_lbracket (cs : List Char) :
    skipWs ('[' :: cs) = '[' :: cs := skipWs_not_ws _ _ rfl

theorem skipWs_lbrace (cs : List Char) :
    skipWs ('\x7b' :: cs) = '\x7b' :: cs := skipWs_not_ws _ _ rfl

theorem skipWs_rbrace (cs : List Char) :
    skipWs ('\x7d' :: cs) = '\x7d' :: cs := skipWs_not_ws _ _ rfl

theorem comma_nl_data : (",\n" : String).data = [',', '\n'] := rfl

theorem parseStrItems_spec (xs : List String) (d : Nat) (tail : List Char)
    (fuel : Nat)
    (hne : xs ≠ [])
    (hplain : ∀ s ∈ xs, plainStrB s = true)
    (hfuel : ('\n' :: ((ind (d + 1)).data
        ++ ((interc (",\n" ++ ind (d + 1)) (xs.map jstr)).data
          ++ ('\n' :: ((ind d).data ++ (']' :: tail)))))).length ≤ fuel) :
    parseStrItems fuel
      ('\n' :: ((ind (d + 1)).data
        ++ ((interc (",\n" ++ ind (d + 1)) (xs.map jstr)).data
          ++ ('\n' :: ((ind d).data ++ (']' :: tail))))))
      = some (xs, tail) := by
  induction xs generalizing fuel with
  | nil => exact absurd rfl hne
  | cons x xs' ih =>
      obtain ⟨f, rfl⟩ : ∃ f, fuel = f + 1 := ⟨fuel - 1, by
        cases fuel with
        | zero => simp at hfuel
        | succ f => omega⟩
      have hx := hplain x (List.mem_cons_self x xs')
      have hxp : ∀ c ∈ x.data, plainCharB c = true := by
        simpa [plainStrB, List.all_eq_true] using hx
      cases xs' with
      | nil =>
          simp only [List.map_cons, List.map_nil, interc_single] at hfuel ⊢
          have hlen : x.data.length + 1 ≤ f := by
            simp [List.length_append, jstr_data_length x hx] at hfuel
            simp only [String.length_data]
            omega
          simp only [parseStrItems, skipWs_nl_ind, jstr_data x hx,
            List.cons_append, List.append_assoc, List.singleton_append,
            skipWs_quote]
          rw [parseStrBody_spec x.data _ f hxp hlen]
          simp only [List.nil_append, skipWs_nl_ind, skipWs_rbracket,
            string_mk_data]
      | cons y ys =>
          simp only [List.map_cons, interc_cons₂] at hfuel ⊢
          simp only [String.data_append, comma_nl_data] at hfuel ⊢
          have hlen : x.data.length + 1 ≤ f := by
            simp [List.length_append, jstr_data_length x hx] at hfuel
            simp only [String.length_data]
            omega
          simp only [parseStrItems, skipWs_nl_ind, jstr_data x hx,
            List.cons_append, List.append_assoc, List.singleton_append,
            skipWs_quote]
          rw [parseStrBody_spec x.data _ f hxp hlen]
          simp only [List.nil_append, skipWs_comma, string_mk_data]
          have hih := ih f (by simp)
            (fun s hs => hplain s (List.mem_cons_of_mem _ hs))
          simp only [List.map_cons, interc_cons₂, String.data_append,
            comma_nl_data, List.cons_append, List.append_assoc,
            List.singleton_append, List.nil_append] at hih
          rw [hih (by
            simp only [List.length_cons, List.length_append] at hfuel ⊢
            omega)]
          rfl

theorem skipWs_t (cs : List Char) :
    skipWs ('t' :: cs) = 't' :: cs := skipWs_not_ws _ _ rfl

theorem skipWs_f (cs : List Char) :
    skipWs ('f' :: cs) = 'f' :: cs := skipWs_not_ws _ _ rfl

theorem nl_data : ("\n" : String).data = ['\n'] := rfl

theorem lbrack_nl_data : ("[\n" : String).data = ['[', '\n'] := rfl

theorem lbrace_nl_data : ("\x7b\n" : String).data = ['\x7b', '\n'] := rfl

theorem rbrack_data : ("]" : String).data = [']'] := rfl

theorem rbrace_data : ("\x7d" : String).data = ['\x7d'] := rfl

theorem colon_space_data : (": " : String).data = [':', ' '] := rfl

theorem empty_arr_data : ("[]" : String).data = ['[', ']'] := rfl

theorem empty_obj_data : ("\x7b\x7d" : String).data = ['\x7b', '\x7d'] := rfl

theorem parseJVal_arr_items (fuel : Nat) (cs z : List Char)
    (hz : skipWs cs = '"' :: z) :
    parseJVal fuel ('[' :: cs)
      = (parseStrItems fuel cs).map
          (fun xsr => (JVal.strList xsr.1, xsr.2)) := by
  have h1 : parseJVal fuel ('[' :: cs)
      = match skipWs cs with
        | ']' :: r2 => some (JVal.strList [], r2)
        | _ => (parseStrItems fuel cs).map
            (fun xsr => (JVal.strList xsr.1, xsr.2)) := by
    unfold parseJVal
    rw [skipWs_lbracket]
    rfl
  rw [h1, hz]
  rfl

theorem parseJVal_spec (v : JVal) (d : Nat) (rest : List Char) (fuel : Nat)
    (hplain : plainJValB v = true)
    (hfuel : ((dumpJVal d v).data ++ rest).length ≤ fuel) :
    parseJVal fuel ((dumpJVal d v).data ++ rest) = some (v, rest) := by
  cases v with
  | str s =>
      have hs : plainStrB s = true := hplain
      have hlen : s.data.length + 1 ≤ fuel := by
        simp [dumpJVal, List.length_append, jstr_data_length s hs] at hfuel
        simp only [String.length_data]
        omega
      simp only [dumpJVal, jstr_data s hs, List.cons_append,
        List.append_assoc, List.singleton_append]
      unfold parseJVal
      rw [skipWs_quote]
      show Option.map (fun sr => (JVal.str sr.1, sr.2))
        (parseStrBody fuel (s.data ++ '"' :: rest)) = some (JVal.str s, rest)
      rw [parseStrBody_spec s.data rest fuel
        (by simpa [plainStrB, List.all_eq_true] using hs) hlen]
      simp [string_mk_data]
  | bool b =>
      cases b with
      | false =>
          have hd : (dumpJVal d (JVal.bool false)).data ++ rest
              = 'f' :: 'a' :: 'l' :: 's' :: 'e' :: rest := rfl
          rw [hd]
          unfold parseJVal
          rw [skipWs_f]
          rfl
      | true =>
          have hd : (dumpJVal d (JVal.bool true)).data ++ rest
              = 't' :: 'r' :: 'u' :: 'e' :: rest := rfl
          rw [hd]
          unfold parseJVal
          rw [skipWs_t]
          rfl
  | strList xs =>
      cases xs with
      | nil =>
          simp only [dumpJVal, List.map_nil, dumpArrBody, empty_arr_data,
            List.cons_append, List.nil_append]
          unfold parseJVal
          rw [skipWs_lbracket]
          rfl
      | cons x xs' =>
          have hpl : ∀ s ∈ x :: xs', plainStrB s = true := by
            simpa [plainJValB, List.all_eq_true] using hplain
          have harr : dumpArrBody d ((x :: xs').map jstr)
              = "[\n" ++ ind (d + 1)
                ++ interc (",\n" ++ ind (d + 1)) ((x :: xs').map jstr)
                ++ "\n" ++ ind d ++ "]" := rfl
          simp only [dumpJVal] at hfuel ⊢
          rw [harr] at hfuel ⊢
          simp only [String.data_append, lbrack_nl_data, nl_data,
            rbrack_data, List.cons_append, List.append_assoc,
            List.singleton_append, List.nil_append] at hfuel ⊢
          have hscrut : ∃ z, skipWs ('\n' :: ((ind (d + 1)).data
              ++ ((interc (",\n" ++ ind (d + 1)) ((x :: xs').map jstr)).data
                ++ ('\n' :: ((ind d).data ++ (']' :: rest))))))
              = '"' :: z := by
            rw [skipWs_nl_ind]
            cases xs' with
            | nil =>
                simp only [List.map_cons, List.map_nil, interc_single]
                rw [jstr_data x (hpl x (List.mem_cons_self x []))]
                simp only [List.cons_append, List.append_assoc]
                rw [skipWs_quote]
                exact ⟨_, rfl⟩
            | cons y ys =>
                simp only [List.map_cons, interc_cons₂, String.data_append]
                rw [jstr_data x (hpl x (List.mem_cons_self x (y :: ys)))]
                simp only [List.cons_append, List.append_assoc]
                rw [skipWs_quote]
                exact ⟨_, rfl⟩
          obtain ⟨z, hz⟩ := hscrut
          rw [parseJVal_arr_items fuel _ z hz]
          have hitems := parseStrItems_spec (x :: xs') d rest fuel
            (by simp) hpl (by
              simp only [List.length_cons, List.length_append] at hfuel ⊢
              omega)
          rw [hitems]
          rfl

theorem parseJVal_space (fuel : Nat) (cs : List Char) :
    parseJVal fuel (' ' :: cs) = parseJVal fuel cs := by
  have h := parseJVal_ws [' '] cs fuel (by
    intro c hc
    simp at hc
    subst hc
    rfl)
  simpa using h

theorem parseEntryList_space (fuel : Nat) (cs : List Char) :
    parseEntryList fuel (' ' :: cs) = parseEntryList fuel cs := by
  have h := parseEntryList_ws [' '] cs fuel (by
    intro c hc
    simp at hc
    subst hc
    rfl)
  simpa using h

theorem parseServersObj_space (fuel : Nat) (cs : List Char) :
    parseServersObj fuel (' ' :: cs) = parseServersObj fuel cs := by
  have h := parseServersObj_ws [' '] cs fuel (by
    intro c hc
    simp at hc
    subst hc
    rfl)
  simpa using h

theorem parseEntryFields_spec (e : EntryDoc) (d : Nat) (tail : List Char)
    (fuel : Nat)
    (hne : e ≠ [])
    (hplain : plainEntryB e = true)
    (hfuel : ('\n' :: ((ind (d + 1)).data
        ++ ((interc (",\n" ++ ind (d + 1))
            (e.map (fun kv => jstr kv.1 ++ ": "
              ++ dumpJVal (d + 1) kv.2))).data
          ++ ('\n' :: ((ind d).data ++ ('\x7d' :: tail)))))).length
      ≤ fuel) :
    parseEntryFields fuel
      ('\n' :: ((ind (d + 1)).data
        ++ ((interc (",\n" ++ ind (d + 1))
            (e.map (fun kv => jstr kv.1 ++ ": "
              ++ dumpJVal (d + 1) kv.2))).data
          ++ ('\n' :: ((ind d).data ++ ('\x7d' :: tail))))))
      = some (e, tail) := by
  induction e generalizing fuel with
  | nil => exact absurd rfl hne
  | cons kv e' ih =>
      obtain ⟨k, v⟩ := kv
      obtain ⟨f, rfl⟩ : ∃ f, fuel = f + 1 := ⟨fuel - 1, by
        cases fuel with
        | zero => simp at hfuel
        | succ f => omega⟩
      have hkv : plainStrB k = true ∧ plainJValB v = true := by
        have := hplain
        simp [plainEntryB, List.all_eq_true] at this
        exact ⟨this.1.1, this.1.2⟩
      have hk := hkv.1
      have hv := hkv.2
      have hkp : ∀ c ∈ k.data, plainCharB c = true := by
        simpa [plainStrB, List.all_eq_true] using hk
      cases e' with
      | nil =>
          simp only [List.map_cons, List.map_nil, interc_single] at hfuel ⊢
          simp only [String.data_append, colon_space_data,
            List.cons_append, List.append_assoc, List.singleton_append,
            List.nil_append] at hfuel ⊢
          have hklen : k.data.length + 1 ≤ f := by
            simp [List.length_append, jstr_data_length k hk] at hfuel
            simp only [String.length_data]
            omega
          simp only [parseEntryFields, skipWs_nl_ind, jstr_data k hk,
            List.cons_append, List.append_assoc, List.singleton_append,
            skipWs_quote]
          rw [parseStrBody_spec k.data _ f hkp hklen]
          simp only [List.nil_append, skipWs_colon, string_mk_data]
          rw [parseJVal_space]
          rw [parseJVal_spec v (d + 1) _ f hv (by
            simp only [List.length_cons, List.length_append] at hfuel ⊢
            omega)]
          simp only [skipWs_nl_ind, skipWs_rbrace]
      | cons kv2 e'' =>
          simp only [List.map_cons, interc_cons₂] at hfuel ⊢
          simp only [String.data_append, colon_space_data, comma_nl_data,
            List.cons_append, List.append_assoc, List.singleton_append,
            List.nil_append] at hfuel ⊢
          have hklen : k.data.length + 1 ≤ f := by
            simp [List.length_append, jstr_data_length k hk] at hfuel
            simp only [String.length_data]
            omega
          simp only [parseEntryFields, skipWs_nl_ind, jstr_data k hk,
            List.cons_append, List.append_assoc, List.singleton_append,
            skipWs_quote]
          rw [parseStrBody_spec k.data _ f hkp hklen]
          simp only [List.nil_append, skipWs_colon, string_mk_data]
          rw [parseJVal_space]
          rw [parseJVal_spec v (d + 1) _ f hv (by
            simp only [List.length_cons, List.length_append] at hfuel ⊢
            omega)]
          simp only [skipWs_comma]
          have hih := ih f (by simp) (by
            have h2 := hplain
            simp [plainEntryB, List.all_eq_true] at h2 ⊢
            exact h2.2)
          simp only [List.map_cons, interc_cons₂, String.data_append,
            colon_space_data, comma_nl_data, List.cons_append,
            List.append_assoc, List.singleton_append,
            List.nil_append] at hih
          rw [hih (by
            simp only [List.length_cons, List.length_append] at hfuel ⊢
            omega)]
          rfl

theorem parseEntryObj_fields (fuel : Nat) (cs z : List Char)
    (hz : skipWs cs = '"' :: z) :
    parseEntryObj fuel ('\x7b' :: cs) = parseEntryFields fuel cs := by
  have h1 : parseEntryObj fuel ('\x7b' :: cs)
      = match skipWs cs with
        | '\x7d' :: r2 => some (([] : EntryDoc), r2)
        | _ => parseEntryFields fuel cs := by
    unfold parseEntryObj
    rw [skipWs_lbrace]
    rfl
  rw [h1, hz]
  rfl

theorem parseEntryObj_spec (e : EntryDoc) (d : Nat) (tail : List Char)
    (fuel : Nat)
    (hplain : plainEntryB e = true)
    (hfuel : ((dumpEntryDoc d e).data ++ tail).length ≤ fuel) :
    parseEntryObj fuel ((dumpEntryDoc d e).data ++ tail) = some (e, tail) := by
  cases e with
  | nil =>
      have hd : (dumpEntryDoc d ([] : EntryDoc)).data ++ tail
          = '\x7b' :: '\x7d' :: tail := rfl
      rw [hd]
      unfold parseEntryObj
      rw [skipWs_lbrace]
      rfl
  | cons kv e' =>
      have hobj : dumpEntryDoc d (kv :: e')
          = "\x7b\n" ++ ind (d + 1)
            ++ interc (",\n" ++ ind (d + 1))
                ((kv :: e').map (fun p => jstr p.1 ++ ": "
                  ++ dumpJVal (d + 1) p.2))
            ++ "\n" ++ ind d ++ "\x7d" := by
        show dumpObjBody d ((kv :: e').map
            (fun p => (p.1, dumpJVal (d + 1) p.2))) = _
        rw [show ((kv :: e').map (fun p => (p.1, dumpJVal (d + 1) p.2)))
            = (kv.1, dumpJVal (d + 1) kv.2)
              :: e'.map (fun p => (p.1, dumpJVal (d + 1) p.2)) from rfl]
        show "\x7b\n" ++ ind (d + 1)
            ++ interc (",\n" ++ ind (d + 1))
              (((kv.1, dumpJVal (d + 1) kv.2)
                :: e'.map (fun p => (p.1, dumpJVal (d + 1) p.2))).map
                  (fun q => jstr q.1 ++ ": " ++ q.2))
            ++ "\n" ++ ind d ++ "\x7d" = _
        rw [List.map_cons, List.map_map]
        rfl
      rw [hobj] at hfuel ⊢
      simp only [String.data_append, lbrace_nl_data, nl_data, rbrace_data,
        List.cons_append, List.append_assoc, List.singleton_append,
        List.nil_append] at hfuel ⊢
      have hk : plainStrB kv.1 = true := by
        simp [plainEntryB, List.all_eq_true] at hplain
        exact hplain.1.1
      have hz : ∃ z, skipWs ('\n' :: ((ind (d + 1)).data
          ++ ((interc (",\n" ++ ind (d + 1))
              ((kv :: e').map (fun p => jstr p.1 ++ ": "
                ++ dumpJVal (d + 1) p.2))).data
            ++ ('\n' :: ((ind d).data ++ ('\x7d' :: tail))))))
          = '"' :: z := by
        rw [skipWs_nl_ind]
        cases e' with
        | nil =>
            simp only [List.map_cons, List.map_nil, interc_single,
              String.data_append]
            rw [jstr_data kv.1 hk]
            simp only [List.cons_append, List.append_assoc]
            rw [skipWs_quote]
            exact ⟨_, rfl⟩
        | cons q e'' =>
            simp only [List.map_cons, interc_cons₂, String.data_append]
            rw [jstr_data kv.1 hk]
            simp only [List.cons_append, List.append_assoc]
            rw [skipWs_quote]
            exact ⟨_, rfl⟩
      obtain ⟨z, hz⟩ := hz
      rw [parseEntryObj_fields fuel _ z hz]
      exact parseEntryFields_spec (kv :: e') d tail fuel (by simp) hplain
        (by
          simp only [List.length_cons, List.length_append] at hfuel ⊢
          omega)

theorem parseEntryObj_nl_ind (fuel d : Nat) (cs : List Char) :
    parseEntryObj fuel ('\n' :: ((ind d).data ++ cs))
      = parseEntryObj fuel cs := by
  have h := parseEntryObj_ws ('\n' :: (ind d).data) cs fuel (by
    intro c hc
    rcases List.mem_cons.mp hc with rfl | hc
    · rfl
    · exact ind_ws d c hc)
  simpa using h

theorem dumpEntryDoc_cons (d : Nat) (kv : String × JVal) (e' : EntryDoc) :
    dumpEntryDoc d (kv :: e')
      = "\x7b\n" ++ ind (d + 1)
        ++ interc (",\n" ++ ind (d + 1))
            ((kv :: e').map (fun p => jstr p.1 ++ ": "
              ++ dumpJVal (d + 1) p.2))
        ++ "\n" ++ ind d ++ "\x7d" := by
  show dumpObjBody d ((kv :: e').map
      (fun p => (p.1, dumpJVal (d + 1) p.2))) = _
  rw [show ((kv :: e').map (fun p => (p.1, dumpJVal (d + 1) p.2)))
      = (kv.1, dumpJVal (d + 1) kv.2)
        :: e'.map (fun p => (p.1, dumpJVal (d + 1) p.2)) from rfl]
  show "\x7b\n" ++ ind (d + 1)
      ++ interc (",\n" ++ ind (d + 1))
        (((kv.1, dumpJVal (d + 1) kv.2)
          :: e'.map (fun p => (p.1, dumpJVal (d + 1) p.2))).map
            (fun q => jstr q.1 ++ ": " ++ q.2))
      ++ "\n" ++ ind d ++ "\x7d" = _
  rw [List.map_cons, List.map_map]
  rfl

theorem dumpEntryList_cons (d : Nat) (e : EntryDoc) (es' : List EntryDoc) :
    dumpEntryList d (e :: es')
      = "[\n" ++ ind (d + 1)
        ++ interc (",\n" ++ ind (d + 1))
            ((e :: es').map (dumpEntryDoc (d + 1)))
        ++ "\n" ++ ind d ++ "]" := rfl

theorem parseEntryItems_spec (es : List EntryDoc) (d : Nat)
    (tail : List Char) (fuel : Nat)
    (hne : es ≠ [])
    (hplain : es.all plainEntryB = true)
    (hfuel : ('\n' :: ((ind (d + 1)).data
        ++ ((interc (",\n" ++ ind (d + 1))
            (es.map (dumpEntryDoc (d + 1)))).data
          ++ ('\n' :: ((ind d).data ++ (']' :: tail)))))).length ≤ fuel) :
    parseEntryItems fuel
      ('\n' :: ((ind (d + 1)).data
        ++ ((interc (",\n" ++ ind (d + 1))
            (es.map (dumpEntryDoc (d + 1)))).data
          ++ ('\n' :: ((ind d).data ++ (']' :: tail))))))
      = some (es, tail) := by
  induction es generalizing fuel with
  | nil => exact absurd rfl hne
  | cons e es' ih =>
      obtain ⟨f, rfl⟩ : ∃ f, fuel = f + 1 := ⟨fuel - 1, by
        cases fuel with
        | zero => simp at hfuel
        | succ f => omega⟩
      have hpe : plainEntryB e = true := by
        simp [List.all_eq_true] at hplain
        exact hplain.1
      cases es' with
      | nil =>
          simp only [List.map_cons, List.map_nil, interc_single] at hfuel ⊢
          simp only [parseEntryItems]
          rw [parseEntryObj_nl_ind]
          rw [parseEntryObj_spec e (d + 1) _ f hpe (by
            simp only [List.length_cons, List.length_append] at hfuel ⊢
            omega)]
          simp only [skipWs_nl_ind, skipWs_rbracket]
      | cons e2 es'' =>
          simp only [List.map_cons, interc_cons₂, String.data_append,
            comma_nl_data, List.cons_append, List.append_assoc,
            List.singleton_append, List.nil_append] at hfuel ⊢
          simp only [parseEntryItems]
          rw [parseEntryObj_nl_ind]
          rw [parseEntryObj_spec e (d + 1) _ f hpe (by
            simp only [List.length_cons, List.length_append] at hfuel ⊢
            omega)]
          simp only [skipWs_comma]
          have hih := ih f (by simp) (by
            simp [List.all_eq_true] at hplain ⊢
            exact hplain.2)
          simp only [List.map_cons, interc_cons₂, String.data_append,
            comma_nl_data, List.cons_append, List.append_assoc,
            List.singleton_append, List.nil_append] at hih
          rw [hih (by
            simp only [List.length_cons, List.length_append] at hfuel ⊢
            omega)]
          rfl

theorem parseEntryList_items (fuel : Nat) (cs z : List Char)
    (hz : skipWs cs = '\x7b' :: z) :
    parseEntryList fuel ('[' :: cs) = parseEntryItems fuel cs := by
  have h1 : parseEntryList fuel ('[' :: cs)
      = match skipWs cs with
        | ']' :: r2 => some (([] : List EntryDoc), r2)
        | _ => parseEntryItems fuel cs := by
    unfold parseEntryList
    rw [skipWs_lbracket]
    rfl
  rw [h1, hz]
  rfl

theorem parseEntryList_spec (es : List EntryDoc) (d : Nat)
    (tail : List Char) (fuel : Nat)
    (hplain : es.all plainEntryB = true)
    (hfuel : ((dumpEntryList d es).data ++ tail).length ≤ fuel) :
    parseEntryList fuel ((dumpEntryList d es).data ++ tail)
      = some (es, tail) := by
  cases es with
  | nil =>
      have hd : (dumpEntryList d ([] : List EntryDoc)).data ++ tail
          = '[' :: ']' :: tail := rfl
      rw [hd]
      unfold parseEntryList
      rw [skipWs_lbracket]
      rfl
  | cons e es' =>
      rw [dumpEntryList_cons] at hfuel ⊢
      simp only [String.data_append, lbrack_nl_data, nl_data, rbrack_data,
        List.cons_append, List.append_assoc, List.singleton_append,
        List.nil_append] at hfuel ⊢
      have hz : ∃ z, skipWs ('\n' :: ((ind (d + 1)).data
          ++ ((interc (",\n" ++ ind (d + 1))
              ((e :: es').map (dumpEntryDoc (d + 1)))).data
            ++ ('\n' :: ((ind d).data ++ (']' :: tail))))))
          = '\x7b' :: z := by
        rw [skipWs_nl_ind]
        cases es' with
        | nil =>
            simp only [List.map_cons, List.map_nil, interc_single]
            cases e with
            | nil =>
                rw [show dumpEntryDoc (d + 1) ([] : EntryDoc)
                    = "\x7b\x7d" from rfl]
                simp only [empty_obj_data, List.cons_append,
                  List.nil_append]
                rw [skipWs_lbrace]
                exact ⟨_, rfl⟩
            | cons kv e' =>
                rw [dumpEntryDoc_cons]
                simp only [String.data_append, lbrace_nl_data,
                  List.cons_append, List.append_assoc]
                rw [skipWs_lbrace]
                exact ⟨_, rfl⟩
        | cons e2 es'' =>
            simp only [List.map_cons, interc_cons₂, String.data_append]
            cases e with
            | nil =>
                rw [show dumpEntryDoc (d + 1) ([] : EntryDoc)
                    = "\x7b\x7d" from rfl]
                simp only [empty_obj_data, List.cons_append,
                  List.nil_append]
                rw [skipWs_lbrace]
                exact ⟨_, rfl⟩
            | cons kv e' =>
                rw [dumpEntryDoc_cons]
                simp only [String.data_append, lbrace_nl_data,
                  List.cons_append, List.append_assoc]
                rw [skipWs_lbrace]
                exact ⟨_, rfl⟩
      obtain ⟨z, hz⟩ := hz
      rw [parseEntryList_items fuel _ z hz]
      exact parseEntryItems_spec (e :: es') d tail fuel (by simp) hplain
        (by
          simp only [List.length_cons, List.length_append] at hfuel ⊢
          omega)

theorem dumpServers_cons (d : Nat) (kv : String × List EntryDoc)
    (svs : ServersDoc) :
    dumpServers d (kv :: svs)
      = "\x7b\n" ++ ind (d + 1)
        ++ interc (",\n" ++ ind (d + 1))
            ((kv :: svs).map (fun p => jstr p.1 ++ ": "
              ++ dumpEntryList (d + 1) p.2))
        ++ "\n" ++ ind d ++ "\x7d" := by
  show dumpObjBody d ((kv :: svs).map
      (fun p => (p.1, dumpEntryList (d + 1) p.2))) = _
  rw [show ((kv :: svs).map (fun p => (p.1, dumpEntryList (d + 1) p.2)))
      = (kv.1, dumpEntryList (d + 1) kv.2)
        :: svs.map (fun p => (p.1, dumpEntryList (d + 1) p.2)) from rfl]
  show "\x7b\n" ++ ind (d + 1)
      ++ interc (",\n" ++ ind (d + 1))
        (((kv.1, dumpEntryList (d + 1) kv.2)
          :: svs.map (fun p => (p.1, dumpEntryList (d + 1) p.2))).map
            (fun q => jstr q.1 ++ ": " ++ q.2))
      ++ "\n" ++ ind d ++ "\x7d" = _
  rw [List.map_cons, List.map_map]
  rfl

theorem parseServerFields_spec (svs : ServersDoc) (d : Nat)
    (tail : List Char) (fuel : Nat)
    (hne : svs ≠ [])
    (hplain : plainServersB svs = true)
    (hfuel : ('\n' :: ((ind (d + 1)).data
        ++ ((interc (",\n" ++ ind (d + 1))
            (svs.map (fun kv => jstr kv.1 ++ ": "
              ++ dumpEntryList (d + 1) kv.2))).data
          ++ ('\n' :: ((ind d).data ++ ('\x7d' :: tail)))))).length
      ≤ fuel) :
    parseServerFields fuel
      ('\n' :: ((ind (d + 1)).data
        ++ ((interc (",\n" ++ ind (d + 1))
            (svs.map (fun kv => jstr kv.1 ++ ": "
              ++ dumpEntryList (d + 1) kv.2))).data
          ++ ('\n' :: ((ind d).data ++ ('\x7d' :: tail))))))
      = some (svs, tail) := by
  induction svs generalizing fuel with
  | nil => exact absurd rfl hne
  | cons kv svs' ih =>
      obtain ⟨k, v⟩ := kv
      obtain ⟨f, rfl⟩ : ∃ f, fuel = f + 1 := ⟨fuel - 1, by
        cases fuel with
        | zero => simp at hfuel
        | succ f => omega⟩
      have hkv : plainStrB k = true ∧ v.all plainEntryB = true := by
        have := hplain
        simp [plainServersB, List.all_eq_true] at this
        exact ⟨this.1.1, by
          simp [List.all_eq_true]
          exact this.1.2⟩
      have hk := hkv.1
      have hv := hkv.2
      have hkp : ∀ c ∈ k.data, plainCharB c = true := by
        simpa [plainStrB, List.all_eq_true] using hk
      cases svs' with
      | nil =>
          simp only [List.map_cons, List.map_nil, interc_single] at hfuel ⊢
          simp only [String.data_append, colon_space_data,
            List.cons_append, List.append_assoc, List.singleton_append,
            List.nil_append] at hfuel ⊢
          have hklen : k.data.length + 1 ≤ f := by
            simp [List.length_append, jstr_data_length k hk] at hfuel
            simp only [String.length_data]
            omega
          simp only [parseServerFields, skipWs_nl_ind, jstr_data k hk,
            List.cons_append, List.append_assoc, List.singleton_append,
            skipWs_quote]
          rw [parseStrBody_spec k.data _ f hkp hklen]
          simp only [List.nil_append, skipWs_colon, string_mk_data]
          rw [parseEntryList_space]
          rw [parseEntryList_spec v (d + 1) _ f hv (by
            simp only [List.length_cons, List.length_append] at hfuel ⊢
            omega)]
          simp only [skipWs_nl_ind, skipWs_rbrace]
      | cons kv2 svs'' =>
          simp only [List.map_cons, interc_cons₂] at hfuel ⊢
          simp only [String.data_append, colon_space_data, comma_nl_data,
            List.cons_append, List.append_assoc, List.singleton_append,
            List.nil_append] at hfuel ⊢
          have hklen : k.data.length + 1 ≤ f := by
            simp [List.length_append, jstr_data_length k hk] at hfuel
            simp only [String.length_data]
            omega
          simp only [parseServerFields, skipWs_nl_ind, jstr_data k hk,
            List.cons_append, List.append_assoc, List.singleton_append,
            skipWs_quote]
          rw [parseStrBody_spec k.data _ f hkp hklen]
          simp only [List.nil_append, skipWs_colon, string_mk_data]
          rw [parseEntryList_space]
          rw [parseEntryList_spec v (d + 1) _ f hv (by
            simp only [List.length_cons, List.length_append] at hfuel ⊢
            omega)]
          simp only [skipWs_comma]
          have hih := ih f (by simp) (by
            have h2 := hplain
            simp [plainServersB, List.all_eq_true] at h2 ⊢
            exact h2.2)
          simp only [List.map_cons, interc_cons₂, String.data_append,
            colon_space_data, comma_nl_data, List.cons_append,
            List.append_assoc, List.singleton_append,
            List.nil_append] at hih
          rw [hih (by
            simp only [List.length_cons, List.length_append] at hfuel ⊢
            omega)]
          rfl

theorem parseServersObj_fields (fuel : Nat) (cs z : List Char)
    (hz : skipWs cs = '"' :: z) :
    parseServersObj fuel ('\x7b' :: cs) = parseServerFields fuel cs := by
  have h1 : parseServersObj fuel ('\x7b' :: cs)
      = match skipWs cs with
        | '\x7d' :: r2 => some (([] : ServersDoc), r2)
        | _ => parseServerFields fuel cs := by
    unfold parseServersObj
    rw [skipWs_lbrace]
    rfl
  rw [h1, hz]
  rfl

theorem parseServersObj_spec (svs : ServersDoc) (d : Nat)
    (tail : List Char) (fuel : Nat)
    (hplain : plainServersB svs = true)
    (hfuel : ((dumpServers d svs).data ++ tail).length ≤ fuel) :
    parseServersObj fuel ((dumpServers d svs).data ++ tail)
      = some (svs, tail) := by
  cases svs with
  | nil =>
      have hd : (dumpServers d ([] : ServersDoc)).data ++ tail
          = '\x7b' :: '\x7d' :: tail := rfl
      rw [hd]
      unfold parseServersObj
      rw [skipWs_lbrace]
      rfl
  | cons kv svs' =>
      rw [dumpServers_cons] at hfuel ⊢
      simp only [String.data_append, lbrace_nl_data, nl_data, rbrace_data,
        List.cons_append, List.append_assoc, List.singleton_append,
        List.nil_append] at hfuel ⊢
      have hk : plainStrB kv.1 = true := by
        simp [plainServersB, List.all_eq_true] at hplain
        exact hplain.1.1
      have hz : ∃ z, skipWs ('\n' :: ((ind (d + 1)).data
          ++ ((interc (",\n" ++ ind (d + 1))
              ((kv :: svs').map (fun p => jstr p.1 ++ ": "
                ++ dumpEntryList (d + 1) p.2))).data
            ++ ('\n' :: ((ind d).data ++ ('\x7d' :: tail))))))
          = '"' :: z := by
        rw [skipWs_nl_ind]
        cases svs' with
        | nil =>
            simp only [List.map_cons, List.map_nil, interc_single,
              String.data_append]
            rw [jstr_data kv.1 hk]
            simp only [List.cons_append, List.append_assoc]
            rw [skipWs_quote]
            exact ⟨_, rfl⟩
        | cons q svs'' =>
            simp only [List.map_cons, interc_cons₂, String.data_append]
            rw [jstr_data kv.1 hk]
            simp only [List.cons_append, List.append_assoc]
            rw [skipWs_quote]
            exact ⟨_, rfl⟩
      obtain ⟨z, hz⟩ := hz
      rw [parseServersObj_fields fuel _ z hz]
      exact parseServerFields_spec (kv :: svs') d tail fuel (by simp)
        hplain (by
          simp only [List.length_cons, List.length_append] at hfuel ⊢
          omega)

theorem ind_zero : (ind 0).data = [] := rfl

theorem save_locker_eq (doc : ServersDoc) :
    save_locker doc
      = "\x7b\n" ++ ind 1
        ++ (jstr "servers" ++ ": " ++ dumpServers 1 doc)
        ++ "\n" ++ ind 0 ++ "\x7d" := rfl

theorem save_locker_data (doc : ServersDoc) :
    (save_locker doc).data
      = '\x7b' :: ('\n' :: ((ind 1).data
          ++ ('"' :: ("servers".data
            ++ ('"' :: (':' :: (' ' :: ((dumpServers 1 doc).data
              ++ ('\n' :: ['\x7d']))))))))) := by
  rw [save_locker_eq doc]
  have hs : plainStrB "servers" = true := by decide
  simp only [String.data_append, lbrace_nl_data, nl_data, rbrace_data,
    colon_space_data, jstr_data "servers" hs, ind_zero,
    List.cons_append, List.append_assoc, List.singleton_append,
    List.nil_append]

theorem loadTop_lbrace (fuel : Nat) (cs : List Char) :
    loadTop fuel ('\x7b' :: cs) = loadKey fuel cs := by
  unfold loadTop
  rw [skipWs_lbrace]
  rfl

theorem loadKey_nl_ind (fuel d : Nat) (cs : List Char) :
    loadKey fuel ('\n' :: ((ind d).data ++ cs)) = loadKey fuel cs := by
  unfold loadKey
  rw [show ('\n' :: ((ind d).data ++ cs))
      = ('\n' :: (ind d).data) ++ cs from rfl]
  rw [skipWs_ws_append _ _ (by
    intro c hc
    rcases List.mem_cons.mp hc with rfl | hc
    · rfl
    · exact ind_ws d c hc)]

theorem loadKey_quote (fuel : Nat) (w : List Char) :
    loadKey fuel ('"' :: w)
      = match parseStrBody fuel w with
        | some (k, r2) => if k = "servers" then loadColon fuel r2 else none
        | none => none := by
  unfold loadKey
  rw [skipWs_quote]
  rfl

theorem loadColon_colon (fuel : Nat) (r3 : List Char) :
    loadColon fuel (':' :: r3)
      = match parseServersObj fuel r3 with
        | some (doc, r4) => loadClose doc r4
        | none => none := by
  unfold loadColon
  rw [skipWs_colon]
  rfl

theorem load_save (doc : ServersDoc) (hplain : plainServersB doc = true) :
    load_locker (save_locker doc) = some doc := by
  unfold load_locker
  rw [save_locker_data doc]
  rw [loadTop_lbrace, loadKey_nl_ind, loadKey_quote]
  have h7 : ("servers".data).length = 7 := rfl
  rw [parseStrBody_spec "servers".data
    (':' :: (' ' :: ((dumpServers 1 doc).data ++ ('\n' :: ['\x7d']))))
    (('\x7b' :: ('\n' :: ((ind 1).data
        ++ ('"' :: ("servers".data
          ++ ('"' :: (':' :: (' ' :: ((dumpServers 1 doc).data
            ++ ('\n' :: ['\x7d'])))))))))).length + 1)
    (by decide)
    (by
      simp only [List.length_cons, List.length_append, h7]
      omega)]
  show (if String.mk "servers".data = "servers" then
          loadColon _ (':' :: (' ' :: ((dumpServers 1 doc).data
            ++ ('\n' :: ['\x7d']))))
        else none) = some doc
  rw [string_mk_data, if_pos rfl]
  rw [loadColon_colon, parseServersObj_space]
  rw [parseServersObj_spec doc 1 ('\n' :: ['\x7d']) _ hplain (by
    simp only [List.length_cons, List.length_append, h7]
    omega)]
  rfl

/-- C7 counterexample: `save(load(doc)) == doc` fails at the document
text level: the compact text `\x7b"servers": \x7b\x7d\x7d` loads to the
empty servers document, but saving re-serializes with the 4-space-indent
format, producing a different text — refuting byte-level round-trip
stability for texts not already in `json.dump(·, indent=4)` form. -/
theorem save_load_roundtrip_cex :
    load_locker "\x7b\"servers\": \x7b\x7d\x7d" = some []
    ∧ save_locker [] = "\x7b\n    \"servers\": \x7b\x7d\n\x7d"
    ∧ save_locker ((load_locker "\x7b\"servers\": \x7b\x7d\x7d").getD [])
        ≠ "\x7b\"servers\": \x7b\x7d\x7d" := by
  refine ⟨by decide, by decide, by decide⟩

/-- C7 (amended): loading the saved text recovers the document exactly —
`load(save(doc)) = doc` — preserving both field order and content of
every server type's entry list; consequently `save(load(t)) = t` holds
for every text `t` that `save` produced, while a text in any other
formatting is re-serialized into the canonical 4-space-indent form. -/
theorem save_load_roundtrip (doc : ServersDoc)
    (hplain : plainServersB doc = true) :
    load_locker (save_locker doc) = some doc
    ∧ (load_locker (save_locker doc)).map save_locker
        = some (save_locker doc) := by
  refine ⟨load_save doc hplain, ?_⟩
  rw [load_save doc hplain]
  rfl

/-- C7 witness: the round trip evaluated on a concrete locker document
with one vanilla entry. -/
theorem save_load_roundtrip_witness :
    load_locker (save_locker c7Doc) = some c7Doc :=
  (save_load_roundtrip c7Doc (by decide)).1

end VersionChecker
